import Mathlib

/-!
Verification of the json-writer streaming JSON encoder (src/src/lib.rs).

The development shallowly embeds the library: strings are modelled as lists
of bytes (Nat), the output sink as an append-only byte buffer together with
a failure model (a budget of remaining successful write calls; budget
`none` models an infallible sink such as the Write impl of String, which
never fails).  Fallible operations return the updated state and a Bool
success flag, mirroring the Rust WriteResult; the `?` early returns are
translated to explicit branching on the flag.
-/

namespace JsonWriter

/--
Model of the output sink (the abstract `W : std::fmt::Write` the encoder
borrows).  `out` is the text appended so far (as bytes); `budget` models
write failures: `none` never fails (the String sink), `some k` lets the
next `k` write calls succeed and fails every call after them, appending
nothing on failure.
-/
structure Sink where
  out : List Nat
  budget : Option Nat
deriving DecidableEq

/-- One fallible write call appending a byte string (`write_str`). -/
def Sink.writeStr (s : Sink) (t : List Nat) : Sink × Bool :=
  match s.budget with
  | none => ({ out := s.out ++ t, budget := none }, true)
  | some 0 => (s, false)
  | some (k + 1) => ({ out := s.out ++ t, budget := some k }, true)

/-- One fallible write call appending a single character (`write_char`). -/
def Sink.writeChar (s : Sink) (c : Nat) : Sink × Bool := s.writeStr [c]

/--
`get_replacements` (src/src/lib.rs lines 727-761): builds the 256-entry
escape table.  Entry 0 means "no escape"; entry `u` (117) means a
`\u00XX` escape; any other nonzero entry `r` means the two-byte escape
`\r`.  The construction mirrors the source: first the three punctuation
escapes, then all control characters below 0x20 marked `u`, then the five
short escapes overwriting their `u` marks.
-/
def get_replacements : List Nat :=
  let result := List.replicate 256 0
  let result := result.set 34 34
  let result := result.set 92 92
  let result := result.set 47 47
  let result := (List.range 32).foldl (fun r c => r.set c 117) result
  let result := result.set 8 98
  let result := result.set 12 102
  let result := result.set 10 110
  let result := result.set 13 114
  let result := result.set 9 116
  result

/-- `REPLACEMENTS` (line 762): table lookup, 0 out of range. -/
def REPLACEMENTS (b : Nat) : Nat := get_replacements.getD b 0

/-- `HEX` (line 763): the byte string `0123456789ABCDEF`. -/
def HEX_TABLE : List Nat := [48, 49, 50, 51, 52, 53, 54, 55, 56, 57, 65, 66, 67, 68, 69, 70]

/-- Lookup into `HEX_TABLE`. -/
def HEX (i : Nat) : Nat := HEX_TABLE.getD i 0

/--
The scanning loop of `write_part_of_string_impl` (lines 768-817).
`num_bytes_written` is the flush point: bytes in
`input[num_bytes_written..index]` are pending un-escaped output.  On a byte
with a nonzero replacement the pending run is flushed, then the escape is
written; after the scan the trailing run is flushed.  Slices
`input.get_unchecked(a..b)` become `(input.drop a).take (b - a)`.
-/
def write_part_loop (output_buffer : Sink) (input : List Nat)
    (num_bytes_written index : Nat) : Sink × Bool :=
  if h : index < input.length then
    let cur_byte := input.get ⟨index, h⟩
    let replacement := REPLACEMENTS cur_byte
    if replacement ≠ 0 then
      let flushed :=
        if num_bytes_written < index then
          output_buffer.writeStr ((input.drop num_bytes_written).take (index - num_bytes_written))
        else (output_buffer, true)
      if flushed.2 = false then (flushed.1, false)
      else
        let esc :=
          if replacement = 117 then
            flushed.1.writeStr [92, 117, 48, 48, HEX (cur_byte / 16), HEX (cur_byte % 16)]
          else
            flushed.1.writeStr [92, replacement]
        if esc.2 = false then (esc.1, false)
        else write_part_loop esc.1 input (index + 1) (index + 1)
    else
      write_part_loop output_buffer input num_bytes_written (index + 1)
  else
    if num_bytes_written < input.length then
      output_buffer.writeStr ((input.drop num_bytes_written).take (input.length - num_bytes_written))
    else (output_buffer, true)
termination_by input.length - index
decreasing_by
  all_goals omega

/-- `write_part_of_string_impl` (lines 768-817): run the loop from the start. -/
def write_part_of_string_impl (output_buffer : Sink) (input : List Nat) : Sink × Bool :=
  write_part_loop output_buffer input 0 0

/-- `write_part_of_string` (lines 722-725): the public unquoted escape helper. -/
def write_part_of_string (output_buffer : Sink) (input : List Nat) : Sink × Bool :=
  write_part_of_string_impl output_buffer input

/-- `write_string` (lines 702-708): quote, escaped body, quote. -/
def write_string (output_buffer : Sink) (input : List Nat) : Sink × Bool :=
  let q1 := output_buffer.writeChar 34
  if q1.2 = false then (q1.1, false)
  else
    let body := write_part_of_string_impl q1.1 input
    if body.2 = false then (body.1, false)
    else
      let q2 := body.1.writeChar 34
      (q2.1, q2.2)

/--
Decimal digits of a natural number, most significant first: the digit
string produced by the itoa dependency for an unsigned value.  Modelled
from the spec (section 4.3): the itoa crate is outside this repository;
its contract is minimal-digit decimal text.
-/
def natDigits (n : Nat) : List Nat :=
  if n < 10 then [48 + n] else natDigits (n / 10) ++ [48 + n % 10]
termination_by n
decreasing_by
  exact Nat.div_lt_self (by omega) (by omega)

/--
Decimal text of an integer: optional leading minus (45) then the digits.
Modelled from the spec (section 4.3): this is the text `itoa::Buffer::format`
produces for the signed and unsigned integer impls (lines 477-538).
-/
def itoa_format (n : Int) : List Nat :=
  if n < 0 then 45 :: natDigits n.natAbs else natDigits n.natAbs

/-- The integer `write_json` impls (lines 477-538): write the itoa text. -/
def int_write_json (n : Int) (s : Sink) : Sink × Bool := s.writeStr (itoa_format n)

/-- The width/signedness pairs `(bits, signed)` for which src/src/lib.rs has a
`JSONWriterValue` impl for an integer type: u32, i32 (lines 477-494), u16,
i16 (lines 499-516), u8, i8 (lines 521-538).  No wider integer type has an
impl in the source. -/
def int_impls : List (Nat × Bool) :=
  [(32, false), (32, true), (16, false), (16, true), (8, false), (8, true)]

/-- The byte string `null`. -/
def nullBytes : List Nat := [110, 117, 108, 108]

/-- The byte string `true`. -/
def trueBytes : List Nat := [116, 114, 117, 101]

/-- The byte string `false`. -/
def falseBytes : List Nat := [102, 97, 108, 115, 101]

/-- The `.0`-suffix strip of `write_float` (lines 836-838): if the formatted
text ends in `.0` drop those two bytes. -/
def stripDotZero (t : List Nat) : List Nat :=
  if 2 ≤ t.length ∧ t.drop (t.length - 2) = [46, 48] then t.take (t.length - 2) else t

/--
`write_float` (lines 824-844) with the IEEE-754 details abstracted: the
caller supplies whether the value is finite and the byte text the ryu
formatter would produce for it.  Non-finite values write the literal
`null`; finite ones write the ryu text with a trailing `.0` stripped.
-/
def write_float (isFinite : Bool) (ryuText : List Nat) (s : Sink) : Sink × Bool :=
  if isFinite = false then s.writeStr nullBytes
  else s.writeStr (stripDotZero ryuText)

/--
`JSONObjectWriter` (lines 146-149): the sink borrow plus the
"no member written yet" flag gating comma emission.
-/
structure JSONObjectWriter where
  writer : Sink
  empty : Bool
deriving DecidableEq

/--
`JSONArrayWriter` (lines 159-162): the sink borrow plus the
"no element written yet" flag.
-/
structure JSONArrayWriter where
  writer : Sink
  empty : Bool
deriving DecidableEq

/-- `JSONObjectWriter::new` (lines 179-185): write the opening brace.  On
failure the returned state carries the unchanged sink (the Rust Err path
returns the borrow with nothing appended). -/
def JSONObjectWriter.new (buffer : Sink) : JSONObjectWriter × Bool :=
  let r := buffer.writeChar 123
  ({ writer := r.1, empty := true }, r.2)

/-- `JSONObjectWriter::write_comma` (lines 252-259). -/
def JSONObjectWriter.write_comma (self : JSONObjectWriter) : JSONObjectWriter × Bool :=
  if self.empty then ({ writer := self.writer, empty := false }, true)
  else
    let r := self.writer.writeChar 44
    ({ writer := r.1, empty := self.empty }, r.2)

/-- `JSONObjectWriter::write_key` (lines 236-241): comma bookkeeping, the
escaped and quoted key, then the colon. -/
def JSONObjectWriter.write_key (self : JSONObjectWriter) (key : List Nat) :
    JSONObjectWriter × Bool :=
  let c := self.write_comma
  if c.2 = false then (c.1, false)
  else
    let k := write_string c.1.writer key
    if k.2 = false then ({ writer := k.1, empty := c.1.empty }, false)
    else
      let r := k.1.writeChar 58
      ({ writer := r.1, empty := c.1.empty }, r.2)

/-- `JSONObjectWriter::member` (lines 217-221): write the key, then let the
value append its own JSON representation (the trait dispatch becomes the
function argument). -/
def JSONObjectWriter.member (self : JSONObjectWriter) (key : List Nat)
    (writeVal : Sink → Sink × Bool) : JSONObjectWriter × Bool :=
  let k := self.write_key key
  if k.2 = false then (k.1, false)
  else
    let r := writeVal k.1.writer
    ({ writer := r.1, empty := k.1.empty }, r.2)

/-- `JSONObjectWriter::end` (lines 288-293): write the closing brace and
return the result of exactly that write; `std::mem::forget(self)` means the
drop cleanup below is never composed after it. -/
def objEnd (self : JSONObjectWriter) : Sink × Bool := self.writer.writeChar 125

/-- `Drop for JSONObjectWriter` (lines 299-304): best-effort closing brace,
its failure discarded. -/
def objDrop (self : JSONObjectWriter) : Sink := (self.writer.writeChar 125).1

/-- `JSONArrayWriter::new` (lines 313-319). -/
def JSONArrayWriter.new (buffer : Sink) : JSONArrayWriter × Bool :=
  let r := buffer.writeChar 91
  ({ writer := r.1, empty := true }, r.2)

/-- `JSONArrayWriter::write_comma` (lines 364-371). -/
def JSONArrayWriter.write_comma (self : JSONArrayWriter) : JSONArrayWriter × Bool :=
  if self.empty then ({ writer := self.writer, empty := false }, true)
  else
    let r := self.writer.writeChar 44
    ({ writer := r.1, empty := self.empty }, r.2)

/-- `JSONArrayWriter::value` (lines 350-353): separator, then the value. -/
def JSONArrayWriter.value (self : JSONArrayWriter) (writeVal : Sink → Sink × Bool) :
    JSONArrayWriter × Bool :=
  let c := self.write_comma
  if c.2 = false then (c.1, false)
  else
    let r := writeVal c.1.writer
    ({ writer := r.1, empty := c.1.empty }, r.2)

/-- `JSONArrayWriter::end` (lines 400-405). -/
def arrEnd (self : JSONArrayWriter) : Sink × Bool := self.writer.writeChar 93

/-- `Drop for JSONArrayWriter` (lines 411-416): best-effort closing bracket,
its failure discarded. -/
def arrDrop (self : JSONArrayWriter) : Sink := (self.writer.writeChar 93).1

/-- `write_object` (lines 679-683). -/
def write_object (output_buffer : Sink) : JSONObjectWriter × Bool :=
  JSONObjectWriter.new output_buffer

/-- `write_array` (lines 693-697). -/
def write_array (output_buffer : Sink) : JSONArrayWriter × Bool :=
  JSONArrayWriter.new output_buffer

/--
The closed universe of encodable values: one constructor per shape the
`JSONWriterValue` impls in the source cover (text, integers through itoa,
floats through ryu with the formatted text abstracted as data, booleans,
the Null sentinel, options, sequences, and string-keyed maps as
association lists in iteration order).
-/
inductive JValue where
  | vstr (t : List Nat)
  | vint (n : Int)
  | vfloat (isFinite : Bool) (ryuText : List Nat)
  | vbool (b : Bool)
  | vnull
  | vopt (o : Option JValue)
  | varr (items : List JValue)
  | vobj (pairs : List (List Nat × JValue))

mutual

/--
`JSONWriterValue::write_json` dispatch over `JValue`.  The container cases
follow the slice impl (lines 603-614) and the map impls (lines 619-646):
the internal builder is never ended explicitly, its closing bracket comes
from the drop cleanup, on the success path and on the early-return path
alike.  The loop bodies inline `JSONArrayWriter.value` and
`JSONObjectWriter.member` (see the bridge lemmas below).
-/
def writeValue : JValue → Sink → Sink × Bool
  | .vstr t, s => write_string s t
  | .vint n, s => int_write_json n s
  | .vfloat fin t, s => write_float fin t s
  | .vbool b, s => s.writeStr (if b then trueBytes else falseBytes)
  | .vnull, s => s.writeStr nullBytes
  | .vopt none, s => s.writeStr nullBytes
  | .vopt (some v), s => writeValue v s
  | .varr items, s =>
      let r := JSONArrayWriter.new s
      if r.2 = false then (r.1.writer, false) else writeArrItems items r.1
  | .vobj pairs, s =>
      let r := JSONObjectWriter.new s
      if r.2 = false then (r.1.writer, false) else writeObjPairs pairs r.1

/-- The slice impl loop (lines 607-613) followed by the drop of the
internal array writer:  `value` inlined, failures return early but still
drop the writer. -/
def writeArrItems : List JValue → JSONArrayWriter → Sink × Bool
  | [], aw => (arrDrop aw, true)
  | v :: rest, aw =>
      let c := aw.write_comma
      if c.2 = false then (arrDrop c.1, false)
      else
        let r := writeValue v c.1.writer
        let aw2 : JSONArrayWriter := { writer := r.1, empty := c.1.empty }
        if r.2 = true then writeArrItems rest aw2 else (arrDrop aw2, false)

/-- The map impl loop (lines 623-629 and 639-645) followed by the drop of
the internal object writer; `member` inlined. -/
def writeObjPairs : List (List Nat × JValue) → JSONObjectWriter → Sink × Bool
  | [], ow => (objDrop ow, true)
  | (k, v) :: rest, ow =>
      let kr := ow.write_key k
      if kr.2 = false then (objDrop kr.1, false)
      else
        let r := writeValue v kr.1.writer
        let ow2 : JSONObjectWriter := { writer := r.1, empty := kr.1.empty }
        if r.2 = true then writeObjPairs rest ow2 else (objDrop ow2, false)

end

/-- `to_json_string` (lines 654-659): encode into a fresh infallible
String buffer and return the text. -/
def to_json_string (v : JValue) : List Nat := (writeValue v { out := [], budget := none }).1.out

/--
The generic slice impl (lines 603-614) kept generic in the element writer:
`JSONArrayWriter::new` behind `?`, then `value` per item behind `?`; the
writer is dropped on every exit path.
-/
def slice_go {α : Type} (w : α → Sink → Sink × Bool) : List α → JSONArrayWriter → Sink × Bool
  | [], aw => (arrDrop aw, true)
  | v :: rest, aw =>
      let r := aw.value (w v)
      if r.2 = true then slice_go w rest r.1 else (arrDrop r.1, false)

/-- `impl JSONWriterValue for &[Item]` (lines 603-614). -/
def slice_write_json {α : Type} (w : α → Sink → Sink × Bool) (items : List α)
    (s : Sink) : Sink × Bool :=
  let r := JSONArrayWriter.new s
  if r.2 = false then (r.1.writer, false) else slice_go w items r.1

/-- The map impls loop (lines 619-646) generic in the value writer. -/
def map_go {α : Type} (w : α → Sink → Sink × Bool) :
    List (List Nat × α) → JSONObjectWriter → Sink × Bool
  | [], ow => (objDrop ow, true)
  | (k, v) :: rest, ow =>
      let r := ow.member k (w v)
      if r.2 = true then map_go w rest r.1 else (objDrop r.1, false)

/-- `impl JSONWriterValue for &HashMap / &BTreeMap` (lines 619-646), the
pairs given in the iteration order of the container. -/
def map_write_json {α : Type} (w : α → Sink → Sink × Bool) (pairs : List (List Nat × α))
    (s : Sink) : Sink × Bool :=
  let r := JSONObjectWriter.new s
  if r.2 = false then (r.1.writer, false) else map_go w pairs r.1

/-! ### The specification-side escape map (claim C1) -/

/--
Escape form of a single byte as the specification words it (section 4.2
table and claim C1): `\"` for the quote, `\\` for backslash, `\/` for the
slash, the five short escapes for 0x08, 0x0C, LF, CR, TAB, `\u00XX` with
two uppercase hex digits for every other byte below 0x20, and the byte
unchanged otherwise.  This definition follows the spec text, to be
compared against the engine translated from the source above.
-/
def spec_escape (b : Nat) : List Nat :=
  if b = 34 then [92, 34]
  else if b = 92 then [92, 92]
  else if b = 47 then [92, 47]
  else if b = 8 then [92, 98]
  else if b = 12 then [92, 102]
  else if b = 10 then [92, 110]
  else if b = 13 then [92, 114]
  else if b = 9 then [92, 116]
  else if b < 32 then [92, 117, 48, 48, HEX (b / 16), HEX (b % 16)]
  else [b]

set_option maxRecDepth 10000

/-! ### Facts about the replacement table -/

theorem get_replacements_length : get_replacements.length = 256 := by decide

theorem replacements_of_ge (b : Nat) (h : 256 ≤ b) : REPLACEMENTS b = 0 := by
  unfold REPLACEMENTS
  exact List.getD_eq_default _ _ (by rw [get_replacements_length]; omega)

theorem spec_escape_of_zero_lt : ∀ b, b < 256 → REPLACEMENTS b = 0 → spec_escape b = [b] := by
  decide

theorem spec_escape_of_zero (b : Nat) (h : REPLACEMENTS b = 0) : spec_escape b = [b] := by
  by_cases hb : b < 256
  · exact spec_escape_of_zero_lt b hb h
  · unfold spec_escape
    split_ifs <;> first | rfl | omega

theorem spec_escape_of_u_lt : ∀ b, b < 256 → REPLACEMENTS b = 117 →
    spec_escape b = [92, 117, 48, 48, HEX (b / 16), HEX (b % 16)] := by
  decide

theorem spec_escape_of_u (b : Nat) (h : REPLACEMENTS b = 117) :
    spec_escape b = [92, 117, 48, 48, HEX (b / 16), HEX (b % 16)] := by
  by_cases hb : b < 256
  · exact spec_escape_of_u_lt b hb h
  · rw [replacements_of_ge b (by omega)] at h
    omega

theorem spec_escape_of_short_lt : ∀ b, b < 256 → REPLACEMENTS b ≠ 0 → REPLACEMENTS b ≠ 117 →
    spec_escape b = [92, REPLACEMENTS b] := by
  decide

theorem spec_escape_of_short (b : Nat) (h : REPLACEMENTS b ≠ 0) (h2 : REPLACEMENTS b ≠ 117) :
    spec_escape b = [92, REPLACEMENTS b] := by
  by_cases hb : b < 256
  · exact spec_escape_of_short_lt b hb h h2
  · rw [replacements_of_ge b (by omega)] at h
    omega

/-! ### Behaviour of writes on an infallible sink -/

theorem writeStr_none (s : Sink) (t : List Nat) (h : s.budget = none) :
    s.writeStr t = ({ out := s.out ++ t, budget := none }, true) := by
  unfold Sink.writeStr
  rw [h]

theorem writeChar_none (s : Sink) (c : Nat) (h : s.budget = none) :
    s.writeChar c = ({ out := s.out ++ [c], budget := none }, true) := by
  unfold Sink.writeChar
  exact writeStr_none s [c] h

/-! ### The escaping engine produces the per-byte concatenation -/

theorem write_part_loop_spec (input : List Nat) (nbw index : Nat) (s : Sink)
    (hb : s.budget = none) (h1 : nbw ≤ index) (h2 : index ≤ input.length)
    (h3 : ∀ j (hj : j < input.length), nbw ≤ j → j < index → REPLACEMENTS input[j] = 0) :
    write_part_loop s input nbw index =
      ({ out := s.out ++ ((input.drop nbw).take (index - nbw))
                ++ ((input.drop index).flatMap spec_escape), budget := none }, true) := by
  rw [write_part_loop.eq_def]
  by_cases h : index < input.length
  · rw [dif_pos h]
    simp only []
    have hdropcons : input.drop index = input[index] :: input.drop (index + 1) :=
      List.drop_eq_getElem_cons h
    by_cases hr : REPLACEMENTS (input.get ⟨index, h⟩) = 0
    · rw [if_neg (by simpa using hr)]
      rw [write_part_loop_spec input nbw (index + 1) s hb (by omega) (by omega)
        (by
          intro j hj hj1 hj2
          by_cases hje : j < index
          · exact h3 j hj hj1 hje
          · have : j = index := by omega
            subst this
            simpa using hr)]
      have htake : (input.drop nbw).take (index + 1 - nbw)
          = (input.drop nbw).take (index - nbw) ++ [input[index]] := by
        have hs : index + 1 - nbw = (index - nbw) + 1 := by omega
        rw [hs, List.take_succ]
        have : (input.drop nbw)[index - nbw]? = some input[index] := by
          rw [List.getElem?_drop]
          have : nbw + (index - nbw) = index := by omega
          rw [this]
          exact List.getElem?_eq_getElem h
        rw [this]
        rfl
      have hesc : spec_escape input[index] = [input[index]] :=
        spec_escape_of_zero _ (by simpa using hr)
      rw [htake, hdropcons, List.flatMap_cons, hesc]
      simp [List.append_assoc]
    · rw [if_pos (by simpa using hr)]
      have hflush :
          (if nbw < index then
              s.writeStr ((input.drop nbw).take (index - nbw))
            else (s, true))
          = ({ out := s.out ++ (input.drop nbw).take (index - nbw), budget := none }, true) := by
        by_cases hni : nbw < index
        · rw [if_pos hni, writeStr_none s _ hb]
        · have heq : nbw = index := by omega
          subst heq
          rw [if_neg hni]
          obtain ⟨o, b⟩ := s
          simp only at hb
          subst hb
          simp
      rw [hflush]
      simp only [Bool.true_eq_false, if_false]
      by_cases h117 : REPLACEMENTS (input.get ⟨index, h⟩) = 117
      · rw [if_pos h117, writeStr_none _ _ (by simp)]
        simp only [Bool.true_eq_false, if_false]
        rw [write_part_loop_spec input (index + 1) (index + 1) _ (by simp) (by omega) (by omega)
          (by intro j hj hj1 hj2; omega)]
        have hesc : spec_escape input[index]
            = [92, 117, 48, 48, HEX (input[index] / 16), HEX (input[index] % 16)] :=
          spec_escape_of_u _ (by simpa using h117)
        rw [hdropcons, List.flatMap_cons, hesc]
        simp [List.append_assoc]
      · rw [if_neg h117, writeStr_none _ _ (by simp)]
        simp only [Bool.true_eq_false, if_false]
        rw [write_part_loop_spec input (index + 1) (index + 1) _ (by simp) (by omega) (by omega)
          (by intro j hj hj1 hj2; omega)]
        have hesc : spec_escape input[index] = [92, REPLACEMENTS input[index]] :=
          spec_escape_of_short _ (by simpa using hr) (by simpa using h117)
        rw [hdropcons, List.flatMap_cons, hesc]
        simp [List.append_assoc]
  · rw [dif_neg h]
    have hieq : index = input.length := by omega
    subst hieq
    simp only [List.drop_length, List.flatMap_nil, List.append_nil]
    by_cases hni : nbw < input.length
    · rw [if_pos hni, writeStr_none s _ hb]
    · rw [if_neg hni]
      have hd : input.drop nbw = [] := List.drop_eq_nil_of_le (by omega)
      rw [hd]
      obtain ⟨o, b⟩ := s
      simp only at hb
      subst hb
      simp
termination_by input.length - index
decreasing_by
  all_goals omega

/-- The public unquoted escape entry point appends exactly the per-byte
escape concatenation on an infallible sink. -/
theorem write_part_of_string_spec (s : Sink) (input : List Nat) (h : s.budget = none) :
    write_part_of_string s input
      = ({ out := s.out ++ input.flatMap spec_escape, budget := none }, true) := by
  unfold write_part_of_string write_part_of_string_impl
  rw [write_part_loop_spec input 0 0 s h (by omega) (by omega) (by intro j hj h1 h2; omega)]
  simp

/-- The quoted escape entry point on an infallible sink. -/
theorem write_string_spec (s : Sink) (input : List Nat) (h : s.budget = none) :
    write_string s input
      = ({ out := s.out ++ 34 :: (input.flatMap spec_escape ++ [34]), budget := none }, true) := by
  unfold write_string write_part_of_string_impl
  rw [writeChar_none s 34 h]
  simp only [Bool.true_eq_false, if_false]
  rw [write_part_loop_spec input 0 0 _ (by simp) (by omega) (by omega)
    (by intro j hj h1 h2; omega)]
  simp only [Bool.true_eq_false, if_false]
  rw [writeChar_none _ 34 (by simp)]
  simp [List.append_assoc]

/-! ### Infallible-sink characterizations of the builder primitives -/

theorem sink_eta (s : Sink) (h : s.budget = none) : s = { out := s.out, budget := none } := by
  obtain ⟨o, b⟩ := s
  simp only at h
  rw [h]

theorem objNew_none (s : Sink) (h : s.budget = none) :
    JSONObjectWriter.new s
      = ({ writer := { out := s.out ++ [123], budget := none }, empty := true }, true) := by
  unfold JSONObjectWriter.new
  rw [writeChar_none s 123 h]

theorem arrNew_none (s : Sink) (h : s.budget = none) :
    JSONArrayWriter.new s
      = ({ writer := { out := s.out ++ [91], budget := none }, empty := true }, true) := by
  unfold JSONArrayWriter.new
  rw [writeChar_none s 91 h]

theorem objComma_none (w : JSONObjectWriter) (h : w.writer.budget = none) :
    w.write_comma
      = ({ writer := { out := w.writer.out ++ (if w.empty then [] else [44]), budget := none },
           empty := false }, true) := by
  unfold JSONObjectWriter.write_comma
  by_cases he : w.empty
  · rw [if_pos he, if_pos he]
    rw [sink_eta w.writer h]
    simp
  · rw [if_neg he, if_neg he, writeChar_none _ 44 h]
    simp only [Bool.not_eq_true] at he
    rw [he]

theorem arrComma_none (w : JSONArrayWriter) (h : w.writer.budget = none) :
    w.write_comma
      = ({ writer := { out := w.writer.out ++ (if w.empty then [] else [44]), budget := none },
           empty := false }, true) := by
  unfold JSONArrayWriter.write_comma
  by_cases he : w.empty
  · rw [if_pos he, if_pos he]
    rw [sink_eta w.writer h]
    simp
  · rw [if_neg he, if_neg he, writeChar_none _ 44 h]
    simp only [Bool.not_eq_true] at he
    rw [he]

theorem objWriteKey_none (w : JSONObjectWriter) (key : List Nat) (h : w.writer.budget = none) :
    w.write_key key
      = ({ writer := { out := w.writer.out ++ (if w.empty then [] else [44])
             ++ (34 :: (key.flatMap spec_escape ++ [34])) ++ [58], budget := none },
           empty := false }, true) := by
  unfold JSONObjectWriter.write_key
  rw [objComma_none w h]
  simp only [Bool.true_eq_false, if_false]
  rw [write_string_spec _ key (by simp)]
  simp only [Bool.true_eq_false, if_false]
  rw [writeChar_none _ 58 (by simp)]

theorem objEnd_none (w : JSONObjectWriter) (h : w.writer.budget = none) :
    objEnd w = ({ out := w.writer.out ++ [125], budget := none }, true) := by
  unfold objEnd
  rw [writeChar_none _ 125 h]

theorem arrEnd_none (w : JSONArrayWriter) (h : w.writer.budget = none) :
    arrEnd w = ({ out := w.writer.out ++ [93], budget := none }, true) := by
  unfold arrEnd
  rw [writeChar_none _ 93 h]

theorem objDrop_none (w : JSONObjectWriter) (h : w.writer.budget = none) :
    objDrop w = { out := w.writer.out ++ [125], budget := none } := by
  unfold objDrop
  rw [writeChar_none _ 125 h]

theorem arrDrop_none (w : JSONArrayWriter) (h : w.writer.budget = none) :
    arrDrop w = { out := w.writer.out ++ [93], budget := none } := by
  unfold arrDrop
  rw [writeChar_none _ 93 h]

/-! ### Value encoding never fails on an infallible sink -/

mutual

theorem writeValue_inf (v : JValue) (s : Sink) (h : s.budget = none) :
    (writeValue v s).1.budget = none ∧ (writeValue v s).2 = true := by
  match v with
  | .vstr t =>
    simp only [writeValue]
    rw [write_string_spec s t h]
    simp
  | .vint n =>
    simp only [writeValue]
    unfold int_write_json
    rw [writeStr_none s _ h]
    simp
  | .vfloat fin t =>
    simp only [writeValue]
    unfold write_float
    by_cases hf : fin = false
    · rw [if_pos hf, writeStr_none s _ h]
      simp
    · rw [if_neg hf, writeStr_none s _ h]
      simp
  | .vbool b =>
    simp only [writeValue]
    rw [writeStr_none s _ h]
    simp
  | .vnull =>
    simp only [writeValue]
    rw [writeStr_none s _ h]
    simp
  | .vopt none =>
    simp only [writeValue]
    rw [writeStr_none s _ h]
    simp
  | .vopt (some v) =>
    simp only [writeValue]
    exact writeValue_inf v s h
  | .varr items =>
    simp only [writeValue]
    rw [arrNew_none s h]
    simp only [Bool.true_eq_false, if_false]
    exact writeArrItems_inf items _ (by simp)
  | .vobj pairs =>
    simp only [writeValue]
    rw [objNew_none s h]
    simp only [Bool.true_eq_false, if_false]
    exact writeObjPairs_inf pairs _ (by simp)

theorem writeArrItems_inf (items : List JValue) (aw : JSONArrayWriter)
    (h : aw.writer.budget = none) :
    (writeArrItems items aw).1.budget = none ∧ (writeArrItems items aw).2 = true := by
  match items with
  | [] =>
    simp only [writeArrItems]
    rw [arrDrop_none aw h]
    simp
  | v :: rest =>
    simp only [writeArrItems]
    rw [arrComma_none aw h]
    simp only [Bool.true_eq_false, if_false]
    have hv := writeValue_inf v ({ out := aw.writer.out ++ (if aw.empty then [] else [44]), budget := none }) (by simp)
    have hv2 := hv.2
    rw [hv2]
    simp only [if_pos rfl]
    exact writeArrItems_inf rest _ hv.1

theorem writeObjPairs_inf (pairs : List (List Nat × JValue)) (ow : JSONObjectWriter)
    (h : ow.writer.budget = none) :
    (writeObjPairs pairs ow).1.budget = none ∧ (writeObjPairs pairs ow).2 = true := by
  match pairs with
  | [] =>
    simp only [writeObjPairs]
    rw [objDrop_none ow h]
    simp
  | (k, v) :: rest =>
    simp only [writeObjPairs]
    rw [objWriteKey_none ow k h]
    simp only [Bool.true_eq_false, if_false]
    have hv := writeValue_inf v ({ out := ow.writer.out ++ (if ow.empty then [] else [44]) ++ (34 :: (k.flatMap spec_escape ++ [34])) ++ [58], budget := none }) (by simp)
    have hv2 := hv.2
    rw [hv2]
    simp only [if_pos rfl]
    exact writeObjPairs_inf rest _ hv.1

end

/-! ### Bridge lemmas: the inlined container loops equal the public builder calls -/

theorem writeArrItems_eq_slice_go (items : List JValue) (aw : JSONArrayWriter) :
    writeArrItems items aw = slice_go writeValue items aw := by
  induction items generalizing aw with
  | nil => simp [writeArrItems, slice_go]
  | cons v rest ih =>
    simp only [writeArrItems, slice_go, JSONArrayWriter.value]
    by_cases hc : (aw.write_comma).2 = false
    · simp [hc]
    · simp only [Bool.not_eq_false] at hc
      by_cases hv : (writeValue v (aw.write_comma).1.writer).2 = true
      · simp [hc, hv, ih]
      · simp [hc, hv]

theorem writeObjPairs_eq_map_go (pairs : List (List Nat × JValue)) (ow : JSONObjectWriter) :
    writeObjPairs pairs ow = map_go writeValue pairs ow := by
  induction pairs generalizing ow with
  | nil => simp [writeObjPairs, map_go]
  | cons kv rest ih =>
    obtain ⟨k, v⟩ := kv
    simp only [writeObjPairs, map_go, JSONObjectWriter.member]
    by_cases hk : (ow.write_key k).2 = false
    · simp [hk]
    · simp only [Bool.not_eq_false] at hk
      by_cases hv : (writeValue v (ow.write_key k).1.writer).2 = true
      · simp [hk, hv, ih]
      · simp [hk, hv]

/-! ### The bracket-matching scanner and the comma-counting scanner -/

/-- One step of the standard bracket-matching check: the stack holds the
expected closing characters; `none` is the rejecting state. -/
def balStep (o : Option (List Nat)) (c : Nat) : Option (List Nat) :=
  o.bind (fun st =>
    if c = 123 then some (125 :: st)
    else if c = 91 then some (93 :: st)
    else if c = 125 ∨ c = 93 then
      (if st.head? = some c then some st.tail else none)
    else some st)

/-- Run the bracket-matching check from a given stack. -/
def balRun (st : List Nat) (t : List Nat) : Option (List Nat) := t.foldl balStep (some st)

/-- One step of the comma counter: counts commas seen while the bracket
stack is empty, that is commas at the nesting level the scan starts at. -/
def commaStep (p : Nat × List Nat) (c : Nat) : Nat × List Nat :=
  if c = 123 then (p.1, 125 :: p.2)
  else if c = 91 then (p.1, 93 :: p.2)
  else if c = 125 ∨ c = 93 then (p.1, p.2.tail)
  else if c = 44 ∧ p.2 = [] then (p.1 + 1, p.2)
  else p

/-- Run the comma counter from a given stack. -/
def commaScan (st : List Nat) (t : List Nat) : Nat × List Nat := t.foldl commaStep (0, st)

theorem balFoldl_none (t : List Nat) : t.foldl balStep none = none := by
  induction t with
  | nil => rfl
  | cons c rest ih =>
    rw [List.foldl_cons]
    have : balStep none c = none := rfl
    rw [this, ih]

theorem balRun_append (st : List Nat) (x y : List Nat) :
    balRun st (x ++ y) = (balRun st x).bind (fun st2 => balRun st2 y) := by
  unfold balRun
  rw [List.foldl_append]
  cases hb : x.foldl balStep (some st) with
  | none => simpa using balFoldl_none y
  | some st2 => rfl

theorem commaStep_shift (n : Nat) (st : List Nat) (c : Nat) :
    commaStep (n, st) c = (n + (commaStep (0, st) c).1, (commaStep (0, st) c).2) := by
  simp only [commaStep]
  split_ifs with h1 h2 h3 h4 <;> simp

theorem commaFoldl_shift (y : List Nat) : ∀ (n : Nat) (st : List Nat),
    y.foldl commaStep (n, st) = (n + (y.foldl commaStep (0, st)).1, (y.foldl commaStep (0, st)).2) := by
  induction y with
  | nil => intro n st; simp
  | cons c rest ih =>
    intro n st
    simp only [List.foldl_cons]
    rw [commaStep_shift n st c]
    cases hc : commaStep (0, st) c with
    | mk d st2 =>
      rw [ih (n + d) st2, ih d st2]
      simp [Nat.add_assoc]

theorem commaScan_append (st : List Nat) (x y : List Nat) :
    commaScan st (x ++ y)
      = ((commaScan st x).1 + (commaScan (commaScan st x).2 y).1,
         (commaScan (commaScan st x).2 y).2) := by
  unfold commaScan
  rw [List.foldl_append]
  cases hb : x.foldl commaStep (0, st) with
  | mk n st2 => rw [commaFoldl_shift y n st2]

/-! ### Byte-avoidance predicates -/

/-- The four structural bracket bytes. -/
def S4 : List Nat := [123, 125, 91, 93]

/-- The four bracket bytes and the comma. -/
def S5 : List Nat := [123, 125, 91, 93, 44]

/-- All bytes below 256 and outside the excluded set. -/
def bavoid (excl : List Nat) (t : List Nat) : Bool :=
  t.all (fun b => decide (b < 256) && !(decide (b ∈ excl)))

theorem bavoid_mem {excl t : List Nat} (h : bavoid excl t = true) {b : Nat} (hb : b ∈ t) :
    b < 256 ∧ b ∉ excl := by
  unfold bavoid at h
  rw [List.all_eq_true] at h
  have := h b hb
  simp at this
  exact this

theorem bavoid_of_forall {excl t : List Nat} (h : ∀ b ∈ t, b < 256 ∧ b ∉ excl) :
    bavoid excl t = true := by
  unfold bavoid
  rw [List.all_eq_true]
  intro b hb
  have := h b hb
  simp [this.1, this.2]

theorem bavoid_append (excl x y : List Nat) :
    bavoid excl (x ++ y) = (bavoid excl x && bavoid excl y) := by
  unfold bavoid
  exact List.all_append

theorem bavoid_tail {excl : List Nat} {c : Nat} {t : List Nat}
    (h : bavoid excl (c :: t) = true) : bavoid excl t = true := by
  refine bavoid_of_forall (fun b hb => ?_)
  exact bavoid_mem h (List.mem_cons_of_mem c hb)

theorem bavoid_sub {t : List Nat} (h : bavoid S5 t = true) : bavoid S4 t = true := by
  refine bavoid_of_forall (fun b hb => ?_)
  have := bavoid_mem h hb
  refine ⟨this.1, fun hmem => this.2 ?_⟩
  simp [S4] at hmem
  simp [S5]
  omega

/-! ### Neutral segments leave both scanners unchanged -/

theorem balStep_neutral {c : Nat} (h1 : c ≠ 123) (h2 : c ≠ 125) (h3 : c ≠ 91) (h4 : c ≠ 93)
    (st : List Nat) : balStep (some st) c = some st := by
  simp only [balStep, Option.some_bind]
  split_ifs <;> first | omega | rfl

theorem commaStep_neutral {c : Nat} (h1 : c ≠ 123) (h2 : c ≠ 125) (h3 : c ≠ 91) (h4 : c ≠ 93)
    (h5 : c ≠ 44) (n : Nat) (st : List Nat) : commaStep (n, st) c = (n, st) := by
  simp only [commaStep]
  split_ifs <;> first | omega | rfl

theorem balRun_neutral {t : List Nat} (h : bavoid S4 t = true) :
    ∀ st, balRun st t = some st := by
  induction t with
  | nil => intro st; rfl
  | cons c rest ih =>
    intro st
    have hc := bavoid_mem h (List.mem_cons_self c rest)
    simp [S4] at hc
    unfold balRun
    rw [List.foldl_cons, balStep_neutral (by omega) (by omega) (by omega) (by omega)]
    exact ih (bavoid_tail h) st

theorem commaScan_neutral {t : List Nat} (h : bavoid S5 t = true) :
    ∀ st, commaScan st t = (0, st) := by
  induction t with
  | nil => intro st; rfl
  | cons c rest ih =>
    intro st
    have hc := bavoid_mem h (List.mem_cons_self c rest)
    simp [S5] at hc
    unfold commaScan
    rw [List.foldl_cons,
      commaStep_neutral (by omega) (by omega) (by omega) (by omega) (by omega)]
    exact ih (bavoid_tail h) st

theorem count_eq_zero_of_bavoid {t : List Nat} (h : bavoid S4 t = true) {c : Nat}
    (hc : c ∈ S4) : t.count c = 0 := by
  rw [List.count_eq_zero]
  intro hmem
  exact (bavoid_mem h hmem).2 hc

/-! ### The balance-invariance relation and its kit -/

/--
`BalInv o o2` : the suffix taking the output from `o` to `o2` is invisible
to the bracket scanner from any starting stack, and adds equally many
opening and closing brackets of each kind.
-/
def BalInv (o o2 : List Nat) : Prop :=
  (∀ st, balRun st o2 = balRun st o) ∧
  o2.count 123 + o.count 125 = o2.count 125 + o.count 123 ∧
  o2.count 91 + o.count 93 = o2.count 93 + o.count 91

theorem BalInv_refl (o : List Nat) : BalInv o o := ⟨fun _ => rfl, by omega, by omega⟩

theorem BalInv_trans {a b c : List Nat} (h1 : BalInv a b) (h2 : BalInv b c) : BalInv a c := by
  obtain ⟨s1, c1, d1⟩ := h1
  obtain ⟨s2, c2, d2⟩ := h2
  exact ⟨fun st => (s2 st).trans (s1 st), by omega, by omega⟩

theorem BalInv_append {o t : List Nat} (h : bavoid S4 t = true) : BalInv o (o ++ t) := by
  refine ⟨fun st => ?_, ?_, ?_⟩
  · rw [balRun_append]
    cases hb : balRun st o with
    | none => rfl
    | some st2 => simp [balRun_neutral h st2]
  · have h1 : t.count 123 = 0 := count_eq_zero_of_bavoid h (by simp [S4])
    have h2 : t.count 125 = 0 := count_eq_zero_of_bavoid h (by simp [S4])
    simp [List.count_append, h1, h2]
    omega
  · have h1 : t.count 91 = 0 := count_eq_zero_of_bavoid h (by simp [S4])
    have h2 : t.count 93 = 0 := count_eq_zero_of_bavoid h (by simp [S4])
    simp [List.count_append, h1, h2]
    omega

theorem balRun_open_curly (st : List Nat) : balRun st [123] = some (125 :: st) := rfl

theorem balRun_open_square (st : List Nat) : balRun st [91] = some (93 :: st) := rfl

theorem balRun_close_curly (st : List Nat) : balRun (125 :: st) [125] = some st := rfl

theorem balRun_close_square (st : List Nat) : balRun (93 :: st) [93] = some st := rfl

theorem BalInv_wrap_curly {o m : List Nat} (h : BalInv (o ++ [123]) m) :
    BalInv o (m ++ [125]) := by
  obtain ⟨hs, hc, hd⟩ := h
  refine ⟨fun st => ?_, ?_, ?_⟩
  · rw [balRun_append, hs st, balRun_append]
    cases hb : balRun st o with
    | none => rfl
    | some st2 => simp [balRun_open_curly, balRun_close_curly]
  · simp only [List.count_append, List.count_cons, List.count_nil] at hc hd ⊢
    simp at hc hd ⊢
    omega
  · simp only [List.count_append, List.count_cons, List.count_nil] at hc hd ⊢
    simp at hc hd ⊢
    omega

theorem BalInv_wrap_square {o m : List Nat} (h : BalInv (o ++ [91]) m) :
    BalInv o (m ++ [93]) := by
  obtain ⟨hs, hc, hd⟩ := h
  refine ⟨fun st => ?_, ?_, ?_⟩
  · rw [balRun_append, hs st, balRun_append]
    cases hb : balRun st o with
    | none => rfl
    | some st2 => simp [balRun_open_square, balRun_close_square]
  · simp only [List.count_append, List.count_cons, List.count_nil] at hc hd ⊢
    simp at hc hd ⊢
    omega
  · simp only [List.count_append, List.count_cons, List.count_nil] at hc hd ⊢
    simp at hc hd ⊢
    omega

/-! ### The comma-count relation and its kit -/

/--
`ComInv a o o2` : extending the output from `o` to `o2` adds, from any
starting stack, exactly `a` commas at the scanning level when the scan
reaches the end of `o` at its own level (stack empty there), none
otherwise, and restores the stack.
-/
def ComInv (a : Nat) (o o2 : List Nat) : Prop :=
  ∀ st, (commaScan st o2).1
          = (commaScan st o).1 + (if (commaScan st o).2 = [] then a else 0)
      ∧ (commaScan st o2).2 = (commaScan st o).2

theorem ComInv_refl (o : List Nat) : ComInv 0 o o := by
  intro st
  simp

theorem ComInv_trans {a b : Nat} {x y z : List Nat} (h1 : ComInv a x y) (h2 : ComInv b y z) :
    ComInv (a + b) x z := by
  intro st
  obtain ⟨f1, s1⟩ := h1 st
  obtain ⟨f2, s2⟩ := h2 st
  constructor
  · rw [f2, f1, s1]
    by_cases hC : (commaScan st x).2 = [] <;> simp [hC] <;> omega
  · rw [s2, s1]

theorem ComInv_append_neutral {o t : List Nat} (h : bavoid S5 t = true) :
    ComInv 0 o (o ++ t) := by
  intro st
  rw [commaScan_append, commaScan_neutral h]
  simp

theorem commaScan_single_comma (st2 : List Nat) :
    commaScan st2 [44] = ((if st2 = [] then 1 else 0), st2) := by
  show commaStep (0, st2) 44 = _
  simp only [commaStep]
  norm_num
  split_ifs <;> rfl

theorem ComInv_append_comma (o : List Nat) : ComInv 1 o (o ++ [44]) := by
  intro st
  rw [commaScan_append, commaScan_single_comma]
  simp

theorem commaScan_open_curly (st : List Nat) : commaScan st [123] = (0, 125 :: st) := rfl

theorem commaScan_open_square (st : List Nat) : commaScan st [91] = (0, 93 :: st) := rfl

theorem commaScan_close_curly (t : Nat) (st : List Nat) :
    commaScan (t :: st) [125] = (0, st) := rfl

theorem commaScan_close_square (t : Nat) (st : List Nat) :
    commaScan (t :: st) [93] = (0, st) := rfl

theorem ComInv_wrap_curly {a : Nat} {o m : List Nat} (h : ComInv a (o ++ [123]) m) :
    ComInv 0 o (m ++ [125]) := by
  intro st
  obtain ⟨f1, s1⟩ := h st
  have e : commaScan st (o ++ [123]) = ((commaScan st o).1, 125 :: (commaScan st o).2) := by
    rw [commaScan_append, commaScan_open_curly]
    simp
  rw [e] at f1 s1
  simp only [List.cons_ne_nil, if_neg (by simp : ¬ (125 :: (commaScan st o).2 = []))] at f1
  constructor
  · rw [commaScan_append, s1, commaScan_close_curly]
    simp [f1]
  · rw [commaScan_append, s1, commaScan_close_curly]

theorem ComInv_wrap_square {a : Nat} {o m : List Nat} (h : ComInv a (o ++ [91]) m) :
    ComInv 0 o (m ++ [93]) := by
  intro st
  obtain ⟨f1, s1⟩ := h st
  have e : commaScan st (o ++ [91]) = ((commaScan st o).1, 93 :: (commaScan st o).2) := by
    rw [commaScan_append, commaScan_open_square]
    simp
  rw [e] at f1 s1
  simp only [List.cons_ne_nil, if_neg (by simp : ¬ (93 :: (commaScan st o).2 = []))] at f1
  constructor
  · rw [commaScan_append, s1, commaScan_close_square]
    simp [f1]
  · rw [commaScan_append, s1, commaScan_close_square]

/-! ### Avoidance facts for the leaf encodings -/

theorem natDigits_mem (n : Nat) : ∀ d ∈ natDigits n, 48 ≤ d ∧ d ≤ 57 := by
  induction n using Nat.strong_induction_on with
  | _ n ih =>
    rw [natDigits.eq_def]
    split
    · intro d hd
      simp at hd
      omega
    · intro d hd
      rw [List.mem_append] at hd
      rcases hd with h | h
      · exact ih (n / 10) (Nat.div_lt_self (by omega) (by omega)) d h
      · simp at h
        omega

theorem itoa_avoid5 (n : Int) : bavoid S5 (itoa_format n) = true := by
  refine bavoid_of_forall (fun b hb => ?_)
  unfold itoa_format at hb
  have hdig : ∀ d ∈ natDigits n.natAbs, d < 256 ∧ d ∉ S5 := by
    intro d hd
    have := natDigits_mem n.natAbs d hd
    refine ⟨by omega, fun hmem => ?_⟩
    simp [S5] at hmem
    omega
  split_ifs at hb with hn
  · rcases List.mem_cons.mp hb with h45 | h
    · subst h45
      refine ⟨by omega, fun hmem => ?_⟩
      simp [S5] at hmem
    · exact hdig b h
  · exact hdig b hb

theorem itoa_avoid4 (n : Int) : bavoid S4 (itoa_format n) = true :=
  bavoid_sub (itoa_avoid5 n)

theorem stripDotZero_subset {t : List Nat} {b : Nat} (h : b ∈ stripDotZero t) : b ∈ t := by
  unfold stripDotZero at h
  split_ifs at h
  · exact (List.take_subset _ _) h
  · exact h

theorem bavoid_stripDotZero {excl t : List Nat} (h : bavoid excl t = true) :
    bavoid excl (stripDotZero t) = true :=
  bavoid_of_forall (fun b hb => bavoid_mem h (stripDotZero_subset hb))

theorem nullBytes_avoid5 : bavoid S5 nullBytes = true := by decide

theorem trueBytes_avoid5 : bavoid S5 trueBytes = true := by decide

theorem falseBytes_avoid5 : bavoid S5 falseBytes = true := by decide

theorem spec_escape_avoid4 : ∀ b, b < 256 → b ∉ S4 → bavoid S4 (spec_escape b) = true := by
  decide

theorem spec_escape_avoid5 : ∀ b, b < 256 → b ∉ S5 → bavoid S5 (spec_escape b) = true := by
  decide

theorem bavoid_flatMap4 {t : List Nat} (h : bavoid S4 t = true) :
    bavoid S4 (t.flatMap spec_escape) = true := by
  induction t with
  | nil => decide
  | cons c rest ih =>
    rw [List.flatMap_cons, bavoid_append]
    have hc := bavoid_mem h (List.mem_cons_self c rest)
    rw [spec_escape_avoid4 c hc.1 hc.2, ih (bavoid_tail h)]
    rfl

theorem bavoid_flatMap5 {t : List Nat} (h : bavoid S5 t = true) :
    bavoid S5 (t.flatMap spec_escape) = true := by
  induction t with
  | nil => decide
  | cons c rest ih =>
    rw [List.flatMap_cons, bavoid_append]
    have hc := bavoid_mem h (List.mem_cons_self c rest)
    rw [spec_escape_avoid5 c hc.1 hc.2, ih (bavoid_tail h)]
    rfl

/-- The quoted escaped string literal avoids the bracket bytes when the
source text does. -/
theorem quoted_avoid4 {t : List Nat} (h : bavoid S4 t = true) :
    bavoid S4 (34 :: (t.flatMap spec_escape ++ [34])) = true := by
  show bavoid S4 ([34] ++ (t.flatMap spec_escape ++ [34])) = true
  rw [bavoid_append, bavoid_append, bavoid_flatMap4 h]
  decide

/-- The quoted escaped string literal avoids brackets and commas when the
source text does. -/
theorem quoted_avoid5 {t : List Nat} (h : bavoid S5 t = true) :
    bavoid S5 (34 :: (t.flatMap spec_escape ++ [34])) = true := by
  show bavoid S5 ([34] ++ (t.flatMap spec_escape ++ [34])) = true
  rw [bavoid_append, bavoid_append, bavoid_flatMap5 h]
  decide

theorem ifcomma_avoid4 (e : Bool) : bavoid S4 (if e then [] else [44]) = true := by
  cases e <;> decide

/-- The full chunk a `write_key` appends: separator, quoted escaped key,
colon. -/
theorem keychunk_avoid4 (e : Bool) {k : List Nat} (hk : bavoid S4 k = true) :
    bavoid S4 ((if e then [] else [44])
      ++ ((34 :: (k.flatMap spec_escape ++ [34])) ++ [58])) = true := by
  rw [bavoid_append, bavoid_append, ifcomma_avoid4, quoted_avoid4 hk]
  decide

/-- The part of a `write_key` chunk after the separator: quoted escaped
key and colon; comma-free when the key text is. -/
theorem keyrest_avoid5 {k : List Nat} (hk : bavoid S5 k = true) :
    bavoid S5 ((34 :: (k.flatMap spec_escape ++ [34])) ++ [58]) = true := by
  rw [bavoid_append, quoted_avoid5 hk]
  decide

/-- The separator prefix adds one comma at the current level unless the
builder was still empty. -/
theorem ComInv_ifcomma (e : Bool) (o : List Nat) :
    ComInv (if e then 0 else 1) o (o ++ (if e then [] else [44])) := by
  cases e
  · simpa using ComInv_append_comma o
  · simpa using ComInv_refl o

/-! ### Avoidance predicates over encodable values -/

mutual

/-- Every piece of text embedded in the value (string contents, map keys,
abstracted float texts) consists of bytes below 256 outside `excl`. -/
def JValue.avoid (excl : List Nat) : JValue → Bool
  | .vstr t => bavoid excl t
  | .vint _ => true
  | .vfloat _ t => bavoid excl t
  | .vbool _ => true
  | .vnull => true
  | .vopt none => true
  | .vopt (some v) => JValue.avoid excl v
  | .varr items => jlistAvoid excl items
  | .vobj pairs => jpairsAvoid excl pairs

/-- `JValue.avoid` over a list of values. -/
def jlistAvoid (excl : List Nat) : List JValue → Bool
  | [] => true
  | v :: rest => JValue.avoid excl v && jlistAvoid excl rest

/-- `JValue.avoid` over key-value pairs. -/
def jpairsAvoid (excl : List Nat) : List (List Nat × JValue) → Bool
  | [] => true
  | (k, v) :: rest => bavoid excl k && JValue.avoid excl v && jpairsAvoid excl rest

end

/-! ### Family 1: value encodings are balance-invariant -/

mutual

theorem writeValue_bal (v : JValue) (s : Sink) (h : s.budget = none)
    (ha : JValue.avoid S4 v = true) : BalInv s.out (writeValue v s).1.out := by
  match v with
  | .vstr t =>
    simp only [writeValue]
    rw [write_string_spec s t h]
    simp only [JValue.avoid] at ha
    exact BalInv_append (quoted_avoid4 ha)
  | .vint n =>
    simp only [writeValue]
    unfold int_write_json
    rw [writeStr_none s _ h]
    exact BalInv_append (itoa_avoid4 n)
  | .vfloat fin t =>
    simp only [writeValue]
    simp only [JValue.avoid] at ha
    unfold write_float
    by_cases hf : fin = false
    · rw [if_pos hf, writeStr_none s _ h]
      exact BalInv_append (bavoid_sub nullBytes_avoid5)
    · rw [if_neg hf, writeStr_none s _ h]
      exact BalInv_append (bavoid_stripDotZero ha)
  | .vbool b =>
    simp only [writeValue]
    rw [writeStr_none s _ h]
    cases b
    · exact BalInv_append (bavoid_sub falseBytes_avoid5)
    · exact BalInv_append (bavoid_sub trueBytes_avoid5)
  | .vnull =>
    simp only [writeValue]
    rw [writeStr_none s _ h]
    exact BalInv_append (bavoid_sub nullBytes_avoid5)
  | .vopt none =>
    simp only [writeValue]
    rw [writeStr_none s _ h]
    exact BalInv_append (bavoid_sub nullBytes_avoid5)
  | .vopt (some v) =>
    simp only [writeValue]
    simp only [JValue.avoid] at ha
    exact writeValue_bal v s h ha
  | .varr items =>
    simp only [writeValue]
    rw [arrNew_none s h]
    simp only [Bool.true_eq_false, if_false]
    simp only [JValue.avoid] at ha
    exact writeArrItems_bal items _ s.out (by simp) ha (BalInv_refl _)
  | .vobj pairs =>
    simp only [writeValue]
    rw [objNew_none s h]
    simp only [Bool.true_eq_false, if_false]
    simp only [JValue.avoid] at ha
    exact writeObjPairs_bal pairs _ s.out (by simp) ha (BalInv_refl _)

theorem writeArrItems_bal (items : List JValue) (aw : JSONArrayWriter) (o : List Nat)
    (h : aw.writer.budget = none) (ha : jlistAvoid S4 items = true)
    (hb : BalInv (o ++ [91]) aw.writer.out) :
    BalInv o (writeArrItems items aw).1.out := by
  match items with
  | [] =>
    simp only [writeArrItems]
    rw [arrDrop_none aw h]
    exact BalInv_wrap_square hb
  | v :: rest =>
    simp only [writeArrItems]
    rw [arrComma_none aw h]
    simp only [Bool.true_eq_false, if_false]
    simp only [jlistAvoid, Bool.and_eq_true] at ha
    have hv := writeValue_inf v ({ out := aw.writer.out ++ (if aw.empty then [] else [44]), budget := none }) (by simp)
    have hv2 := hv.2
    rw [hv2]
    simp only [if_pos rfl]
    have hb1 : BalInv (o ++ [91]) (aw.writer.out ++ (if aw.empty then [] else [44])) :=
      BalInv_trans hb (BalInv_append (ifcomma_avoid4 aw.empty))
    have hb2 : BalInv (o ++ [91])
        (writeValue v ({ out := aw.writer.out ++ (if aw.empty then [] else [44]), budget := none })).1.out :=
      BalInv_trans hb1 (writeValue_bal v _ (by simp) ha.1)
    exact writeArrItems_bal rest _ o hv.1 ha.2 hb2

theorem writeObjPairs_bal (pairs : List (List Nat × JValue)) (ow : JSONObjectWriter)
    (o : List Nat) (h : ow.writer.budget = none) (ha : jpairsAvoid S4 pairs = true)
    (hb : BalInv (o ++ [123]) ow.writer.out) :
    BalInv o (writeObjPairs pairs ow).1.out := by
  match pairs with
  | [] =>
    simp only [writeObjPairs]
    rw [objDrop_none ow h]
    exact BalInv_wrap_curly hb
  | (k, v) :: rest =>
    simp only [writeObjPairs]
    rw [objWriteKey_none ow k h]
    simp only [Bool.true_eq_false, if_false]
    simp only [jpairsAvoid, Bool.and_eq_true] at ha
    have hv := writeValue_inf v ({ out := ow.writer.out ++ (if ow.empty then [] else [44]) ++ (34 :: (k.flatMap spec_escape ++ [34])) ++ [58], budget := none }) (by simp)
    have hv2 := hv.2
    rw [hv2]
    simp only [if_pos rfl]
    have hb1 : BalInv (o ++ [123])
        (ow.writer.out ++ (if ow.empty then [] else [44]) ++ (34 :: (k.flatMap spec_escape ++ [34])) ++ [58]) := by
      refine BalInv_trans hb ?_
      have := BalInv_append (o := ow.writer.out) (keychunk_avoid4 ow.empty ha.1.1)
      simpa [List.append_assoc] using this
    have hb2 : BalInv (o ++ [123])
        (writeValue v ({ out := ow.writer.out ++ (if ow.empty then [] else [44]) ++ (34 :: (k.flatMap spec_escape ++ [34])) ++ [58], budget := none })).1.out :=
      BalInv_trans hb1 (writeValue_bal v _ (by simp) ha.1.2)
    exact writeObjPairs_bal rest _ o hv.1 ha.2 hb2

end

/-! ### Family 2: value encodings add no commas at the outer level -/

mutual

theorem writeValue_com (v : JValue) (s : Sink) (h : s.budget = none)
    (ha : JValue.avoid S5 v = true) : ComInv 0 s.out (writeValue v s).1.out := by
  match v with
  | .vstr t =>
    simp only [writeValue]
    rw [write_string_spec s t h]
    simp only [JValue.avoid] at ha
    exact ComInv_append_neutral (quoted_avoid5 ha)
  | .vint n =>
    simp only [writeValue]
    unfold int_write_json
    rw [writeStr_none s _ h]
    exact ComInv_append_neutral (itoa_avoid5 n)
  | .vfloat fin t =>
    simp only [writeValue]
    simp only [JValue.avoid] at ha
    unfold write_float
    by_cases hf : fin = false
    · rw [if_pos hf, writeStr_none s _ h]
      exact ComInv_append_neutral nullBytes_avoid5
    · rw [if_neg hf, writeStr_none s _ h]
      exact ComInv_append_neutral (bavoid_stripDotZero ha)
  | .vbool b =>
    simp only [writeValue]
    rw [writeStr_none s _ h]
    cases b
    · exact ComInv_append_neutral falseBytes_avoid5
    · exact ComInv_append_neutral trueBytes_avoid5
  | .vnull =>
    simp only [writeValue]
    rw [writeStr_none s _ h]
    exact ComInv_append_neutral nullBytes_avoid5
  | .vopt none =>
    simp only [writeValue]
    rw [writeStr_none s _ h]
    exact ComInv_append_neutral nullBytes_avoid5
  | .vopt (some v) =>
    simp only [writeValue]
    simp only [JValue.avoid] at ha
    exact writeValue_com v s h ha
  | .varr items =>
    simp only [writeValue]
    rw [arrNew_none s h]
    simp only [Bool.true_eq_false, if_false]
    simp only [JValue.avoid] at ha
    exact writeArrItems_com items _ s.out 0 (by simp) ha (ComInv_refl _)
  | .vobj pairs =>
    simp only [writeValue]
    rw [objNew_none s h]
    simp only [Bool.true_eq_false, if_false]
    simp only [JValue.avoid] at ha
    exact writeObjPairs_com pairs _ s.out 0 (by simp) ha (ComInv_refl _)

theorem writeArrItems_com (items : List JValue) (aw : JSONArrayWriter) (o : List Nat)
    (a : Nat) (h : aw.writer.budget = none) (ha : jlistAvoid S5 items = true)
    (hb : ComInv a (o ++ [91]) aw.writer.out) :
    ComInv 0 o (writeArrItems items aw).1.out := by
  match items with
  | [] =>
    simp only [writeArrItems]
    rw [arrDrop_none aw h]
    exact ComInv_wrap_square hb
  | v :: rest =>
    simp only [writeArrItems]
    rw [arrComma_none aw h]
    simp only [Bool.true_eq_false, if_false]
    simp only [jlistAvoid, Bool.and_eq_true] at ha
    have hv := writeValue_inf v ({ out := aw.writer.out ++ (if aw.empty then [] else [44]), budget := none }) (by simp)
    have hv2 := hv.2
    rw [hv2]
    simp only [if_pos rfl]
    have hb1 : ComInv (a + (if aw.empty then 0 else 1)) (o ++ [91])
        (aw.writer.out ++ (if aw.empty then [] else [44])) :=
      ComInv_trans hb (ComInv_ifcomma aw.empty aw.writer.out)
    have hb2 : ComInv (a + (if aw.empty then 0 else 1) + 0) (o ++ [91])
        (writeValue v ({ out := aw.writer.out ++ (if aw.empty then [] else [44]), budget := none })).1.out :=
      ComInv_trans hb1 (writeValue_com v _ (by simp) ha.1)
    exact writeArrItems_com rest _ o _ hv.1 ha.2 hb2

theorem writeObjPairs_com (pairs : List (List Nat × JValue)) (ow : JSONObjectWriter)
    (o : List Nat) (a : Nat) (h : ow.writer.budget = none) (ha : jpairsAvoid S5 pairs = true)
    (hb : ComInv a (o ++ [123]) ow.writer.out) :
    ComInv 0 o (writeObjPairs pairs ow).1.out := by
  match pairs with
  | [] =>
    simp only [writeObjPairs]
    rw [objDrop_none ow h]
    exact ComInv_wrap_curly hb
  | (k, v) :: rest =>
    simp only [writeObjPairs]
    rw [objWriteKey_none ow k h]
    simp only [Bool.true_eq_false, if_false]
    simp only [jpairsAvoid, Bool.and_eq_true] at ha
    have hv := writeValue_inf v ({ out := ow.writer.out ++ (if ow.empty then [] else [44]) ++ (34 :: (k.flatMap spec_escape ++ [34])) ++ [58], budget := none }) (by simp)
    have hv2 := hv.2
    rw [hv2]
    simp only [if_pos rfl]
    have hb1 : ComInv (a + (if ow.empty then 0 else 1)) (o ++ [123])
        (ow.writer.out ++ (if ow.empty then [] else [44]) ++ (34 :: (k.flatMap spec_escape ++ [34])) ++ [58]) := by
      refine ComInv_trans (b := 0) (ComInv_trans hb (ComInv_ifcomma ow.empty ow.writer.out)) ?_
      have := ComInv_append_neutral (o := ow.writer.out ++ (if ow.empty then [] else [44]))
        (keyrest_avoid5 ha.1.1)
      simpa [List.append_assoc] using this
    have hb2 : ComInv (a + (if ow.empty then 0 else 1) + 0) (o ++ [123])
        (writeValue v ({ out := ow.writer.out ++ (if ow.empty then [] else [44]) ++ (34 :: (k.flatMap spec_escape ++ [34])) ++ [58], budget := none })).1.out :=
      ComInv_trans hb1 (writeValue_com v _ (by simp) ha.1.2)
    exact writeObjPairs_com rest _ o _ hv.1 ha.2 hb2

end

/-! ### Programs over the builder API -/

mutual

/--
One caller-visible operation on an object builder: the append operations
`member`, nested `object(key)` / `array(key)` (carrying the operations
performed on the child builder and whether the child was ended explicitly
or abandoned to its drop cleanup), and the low-level escape hatches
`write_key` and `write_comma`.
-/
inductive ObjOp where
  | member (key : List Nat) (v : JValue)
  | key_only (key : List Nat)
  | comma_only
  | nestObj (key : List Nat) (ops : List ObjOp) (ended : Bool)
  | nestArr (key : List Nat) (ops : List ArrOp) (ended : Bool)

/-- One caller-visible operation on an array builder. -/
inductive ArrOp where
  | value (v : JValue)
  | comma_only
  | nestObj (ops : List ObjOp) (ended : Bool)
  | nestArr (ops : List ArrOp) (ended : Bool)

end

mutual

/--
Interpret one object-builder operation, following the source methods:
`member` (line 218), `write_key` (line 237), `write_comma` (line 252),
`object` / `array` (lines 194, 206) which write the key then open a child
builder; the child is finished by `end` (returning that write's result)
or by the drop cleanup (discarding it).  On failures the remaining writes
of the operation are skipped as the `?` operator does, but a child
builder that was opened is still closed by its drop cleanup.
-/
def runObjOp : ObjOp → JSONObjectWriter → JSONObjectWriter × Bool
  | .member key v, w => w.member key (writeValue v)
  | .key_only key, w => w.write_key key
  | .comma_only, w => w.write_comma
  | .nestObj key ops ended, w =>
      let kr := w.write_key key
      if kr.2 = false then (kr.1, false)
      else
        let nw := JSONObjectWriter.new kr.1.writer
        if nw.2 = false then ({ writer := nw.1.writer, empty := kr.1.empty }, false)
        else
          let br := runObjOps ops nw.1
          if ended then
            let er := objEnd br.1
            ({ writer := er.1, empty := kr.1.empty }, br.2 && er.2)
          else ({ writer := objDrop br.1, empty := kr.1.empty }, br.2)
  | .nestArr key ops ended, w =>
      let kr := w.write_key key
      if kr.2 = false then (kr.1, false)
      else
        let nw := JSONArrayWriter.new kr.1.writer
        if nw.2 = false then ({ writer := nw.1.writer, empty := kr.1.empty }, false)
        else
          let br := runArrOps ops nw.1
          if ended then
            let er := arrEnd br.1
            ({ writer := er.1, empty := kr.1.empty }, br.2 && er.2)
          else ({ writer := arrDrop br.1, empty := kr.1.empty }, br.2)

/-- Interpret a sequence of object-builder operations, conjoining the
success flags. -/
def runObjOps : List ObjOp → JSONObjectWriter → JSONObjectWriter × Bool
  | [], w => (w, true)
  | op :: rest, w =>
      let r := runObjOp op w
      let r2 := runObjOps rest r.1
      (r2.1, r.2 && r2.2)

/-- Interpret one array-builder operation (`value` line 350, `write_comma`
line 364, nested `object()` / `array()` lines 327, 338). -/
def runArrOp : ArrOp → JSONArrayWriter → JSONArrayWriter × Bool
  | .value v, w => w.value (writeValue v)
  | .comma_only, w => w.write_comma
  | .nestObj ops ended, w =>
      let c := w.write_comma
      if c.2 = false then (c.1, false)
      else
        let nw := JSONObjectWriter.new c.1.writer
        if nw.2 = false then ({ writer := nw.1.writer, empty := c.1.empty }, false)
        else
          let br := runObjOps ops nw.1
          if ended then
            let er := objEnd br.1
            ({ writer := er.1, empty := c.1.empty }, br.2 && er.2)
          else ({ writer := objDrop br.1, empty := c.1.empty }, br.2)
  | .nestArr ops ended, w =>
      let c := w.write_comma
      if c.2 = false then (c.1, false)
      else
        let nw := JSONArrayWriter.new c.1.writer
        if nw.2 = false then ({ writer := nw.1.writer, empty := c.1.empty }, false)
        else
          let br := runArrOps ops nw.1
          if ended then
            let er := arrEnd br.1
            ({ writer := er.1, empty := c.1.empty }, br.2 && er.2)
          else ({ writer := arrDrop br.1, empty := c.1.empty }, br.2)

/-- Interpret a sequence of array-builder operations. -/
def runArrOps : List ArrOp → JSONArrayWriter → JSONArrayWriter × Bool
  | [], w => (w, true)
  | op :: rest, w =>
      let r := runArrOp op w
      let r2 := runArrOps rest r.1
      (r2.1, r.2 && r2.2)

end

/-- A whole-program run on a fresh infallible sink rooted at an object
builder (`write_object`, the operations, then `end` or abandonment). -/
def runProgramObj (ops : List ObjOp) (ended : Bool) : Sink :=
  if ended then (objEnd (runObjOps ops (write_object { out := [], budget := none }).1).1).1
  else objDrop (runObjOps ops (write_object { out := [], budget := none }).1).1

/-- A whole-program run rooted at an array builder. -/
def runProgramArr (ops : List ArrOp) (ended : Bool) : Sink :=
  if ended then (arrEnd (runArrOps ops (write_array { out := [], budget := none }).1).1).1
  else arrDrop (runArrOps ops (write_array { out := [], budget := none }).1).1

mutual

/-- Every text embedded in the operation avoids `excl`. -/
def ObjOp.avoid (excl : List Nat) : ObjOp → Bool
  | .member key v => bavoid excl key && JValue.avoid excl v
  | .key_only key => bavoid excl key
  | .comma_only => true
  | .nestObj key ops _ => bavoid excl key && objOpsAvoid excl ops
  | .nestArr key ops _ => bavoid excl key && arrOpsAvoid excl ops

/-- `ObjOp.avoid` over a list. -/
def objOpsAvoid (excl : List Nat) : List ObjOp → Bool
  | [] => true
  | op :: rest => ObjOp.avoid excl op && objOpsAvoid excl rest

/-- Every text embedded in the operation avoids `excl`. -/
def ArrOp.avoid (excl : List Nat) : ArrOp → Bool
  | .value v => JValue.avoid excl v
  | .comma_only => true
  | .nestObj ops _ => objOpsAvoid excl ops
  | .nestArr ops _ => arrOpsAvoid excl ops

/-- `ArrOp.avoid` over a list. -/
def arrOpsAvoid (excl : List Nat) : List ArrOp → Bool
  | [] => true
  | op :: rest => ArrOp.avoid excl op && arrOpsAvoid excl rest

end

/-- The append operations of claim C4: `member` on objects, `value` on
arrays, and the nested `object` / `array` openers; the two low-level
escape hatches are not appends. -/
def ObjOp.isAppend : ObjOp → Bool
  | .member _ _ => true
  | .key_only _ => false
  | .comma_only => false
  | .nestObj _ _ _ => true
  | .nestArr _ _ _ => true

/-- The append operations on an array builder. -/
def ArrOp.isAppend : ArrOp → Bool
  | .value _ => true
  | .comma_only => false
  | .nestObj _ _ => true
  | .nestArr _ _ => true

/-! ### Interpreter family 0: on an infallible sink every operation succeeds -/

mutual

theorem runObjOp_inf (op : ObjOp) (w : JSONObjectWriter) (h : w.writer.budget = none) :
    (runObjOp op w).1.writer.budget = none ∧ (runObjOp op w).2 = true ∧
    (runObjOp op w).1.empty = false := by
  match op with
  | .member key v =>
    simp only [runObjOp, JSONObjectWriter.member]
    have hk2 : (w.write_key key).2 = true := by rw [objWriteKey_none w key h]
    have hkb : (w.write_key key).1.writer.budget = none := by rw [objWriteKey_none w key h]
    have hke : (w.write_key key).1.empty = false := by rw [objWriteKey_none w key h]
    rw [hk2]
    simp only [Bool.true_eq_false, if_false]
    have hv := writeValue_inf v (w.write_key key).1.writer hkb
    exact ⟨hv.1, hv.2, hke⟩
  | .key_only key =>
    simp only [runObjOp]
    rw [objWriteKey_none w key h]
    exact ⟨rfl, rfl, rfl⟩
  | .comma_only =>
    simp only [runObjOp]
    rw [objComma_none w h]
    exact ⟨rfl, rfl, rfl⟩
  | .nestObj key ops ended =>
    simp only [runObjOp]
    have hk2 : (w.write_key key).2 = true := by rw [objWriteKey_none w key h]
    have hkb : (w.write_key key).1.writer.budget = none := by rw [objWriteKey_none w key h]
    have hke : (w.write_key key).1.empty = false := by rw [objWriteKey_none w key h]
    rw [hk2]
    simp only [Bool.true_eq_false, if_false]
    have hn2 : (JSONObjectWriter.new (w.write_key key).1.writer).2 = true := by
      rw [objNew_none _ hkb]
    have hnb : (JSONObjectWriter.new (w.write_key key).1.writer).1.writer.budget = none := by
      rw [objNew_none _ hkb]
    rw [hn2]
    simp only [Bool.true_eq_false, if_false]
    have hb := runObjOps_inf ops (JSONObjectWriter.new (w.write_key key).1.writer).1 hnb
    cases ended
    · simp only [Bool.false_eq_true, if_false]
      have hd : (objDrop (runObjOps ops (JSONObjectWriter.new (w.write_key key).1.writer).1).1).budget = none := by
        rw [objDrop_none _ hb.1]
      exact ⟨hd, by rw [hb.2.1], hke⟩
    · simp only [eq_self_iff_true, if_true]
      have he1 : (objEnd (runObjOps ops (JSONObjectWriter.new (w.write_key key).1.writer).1).1).1.budget = none := by
        rw [objEnd_none _ hb.1]
      have he2 : (objEnd (runObjOps ops (JSONObjectWriter.new (w.write_key key).1.writer).1).1).2 = true := by
        rw [objEnd_none _ hb.1]
      exact ⟨he1, by simp [hb.2.1, he2], hke⟩
  | .nestArr key ops ended =>
    simp only [runObjOp]
    have hk2 : (w.write_key key).2 = true := by rw [objWriteKey_none w key h]
    have hkb : (w.write_key key).1.writer.budget = none := by rw [objWriteKey_none w key h]
    have hke : (w.write_key key).1.empty = false := by rw [objWriteKey_none w key h]
    rw [hk2]
    simp only [Bool.true_eq_false, if_false]
    have hn2 : (JSONArrayWriter.new (w.write_key key).1.writer).2 = true := by
      rw [arrNew_none _ hkb]
    have hnb : (JSONArrayWriter.new (w.write_key key).1.writer).1.writer.budget = none := by
      rw [arrNew_none _ hkb]
    rw [hn2]
    simp only [Bool.true_eq_false, if_false]
    have hb := runArrOps_inf ops (JSONArrayWriter.new (w.write_key key).1.writer).1 hnb
    cases ended
    · simp only [Bool.false_eq_true, if_false]
      have hd : (arrDrop (runArrOps ops (JSONArrayWriter.new (w.write_key key).1.writer).1).1).budget = none := by
        rw [arrDrop_none _ hb.1]
      exact ⟨hd, by rw [hb.2.1], hke⟩
    · simp only [eq_self_iff_true, if_true]
      have he1 : (arrEnd (runArrOps ops (JSONArrayWriter.new (w.write_key key).1.writer).1).1).1.budget = none := by
        rw [arrEnd_none _ hb.1]
      have he2 : (arrEnd (runArrOps ops (JSONArrayWriter.new (w.write_key key).1.writer).1).1).2 = true := by
        rw [arrEnd_none _ hb.1]
      exact ⟨he1, by simp [hb.2.1, he2], hke⟩

theorem runObjOps_inf (ops : List ObjOp) (w : JSONObjectWriter) (h : w.writer.budget = none) :
    (runObjOps ops w).1.writer.budget = none ∧ (runObjOps ops w).2 = true ∧
    (runObjOps ops w).1.empty = (w.empty && ops.isEmpty) := by
  match ops with
  | [] =>
    simp only [runObjOps, List.isEmpty_nil, Bool.and_true]
    exact ⟨h, trivial, trivial⟩
  | op :: rest =>
    simp only [runObjOps]
    have h1 := runObjOp_inf op w h
    have h2 := runObjOps_inf rest (runObjOp op w).1 h1.1
    refine ⟨h2.1, by simp [h1.2.1, h2.2.1], ?_⟩
    rw [h2.2.2, h1.2.2]
    simp

theorem runArrOp_inf (op : ArrOp) (w : JSONArrayWriter) (h : w.writer.budget = none) :
    (runArrOp op w).1.writer.budget = none ∧ (runArrOp op w).2 = true ∧
    (runArrOp op w).1.empty = false := by
  match op with
  | .value v =>
    simp only [runArrOp, JSONArrayWriter.value]
    have hc2 : (w.write_comma).2 = true := by rw [arrComma_none w h]
    have hcb : (w.write_comma).1.writer.budget = none := by rw [arrComma_none w h]
    have hce : (w.write_comma).1.empty = false := by rw [arrComma_none w h]
    rw [hc2]
    simp only [Bool.true_eq_false, if_false]
    have hv := writeValue_inf v (w.write_comma).1.writer hcb
    exact ⟨hv.1, hv.2, hce⟩
  | .comma_only =>
    simp only [runArrOp]
    rw [arrComma_none w h]
    exact ⟨rfl, rfl, rfl⟩
  | .nestObj ops ended =>
    simp only [runArrOp]
    have hc2 : (w.write_comma).2 = true := by rw [arrComma_none w h]
    have hcb : (w.write_comma).1.writer.budget = none := by rw [arrComma_none w h]
    have hce : (w.write_comma).1.empty = false := by rw [arrComma_none w h]
    rw [hc2]
    simp only [Bool.true_eq_false, if_false]
    have hn2 : (JSONObjectWriter.new (w.write_comma).1.writer).2 = true := by
      rw [objNew_none _ hcb]
    have hnb : (JSONObjectWriter.new (w.write_comma).1.writer).1.writer.budget = none := by
      rw [objNew_none _ hcb]
    rw [hn2]
    simp only [Bool.true_eq_false, if_false]
    have hb := runObjOps_inf ops (JSONObjectWriter.new (w.write_comma).1.writer).1 hnb
    cases ended
    · simp only [Bool.false_eq_true, if_false]
      have hd : (objDrop (runObjOps ops (JSONObjectWriter.new (w.write_comma).1.writer).1).1).budget = none := by
        rw [objDrop_none _ hb.1]
      exact ⟨hd, by rw [hb.2.1], hce⟩
    · simp only [eq_self_iff_true, if_true]
      have he1 : (objEnd (runObjOps ops (JSONObjectWriter.new (w.write_comma).1.writer).1).1).1.budget = none := by
        rw [objEnd_none _ hb.1]
      have he2 : (objEnd (runObjOps ops (JSONObjectWriter.new (w.write_comma).1.writer).1).1).2 = true := by
        rw [objEnd_none _ hb.1]
      exact ⟨he1, by simp [hb.2.1, he2], hce⟩
  | .nestArr ops ended =>
    simp only [runArrOp]
    have hc2 : (w.write_comma).2 = true := by rw [arrComma_none w h]
    have hcb : (w.write_comma).1.writer.budget = none := by rw [arrComma_none w h]
    have hce : (w.write_comma).1.empty = false := by rw [arrComma_none w h]
    rw [hc2]
    simp only [Bool.true_eq_false, if_false]
    have hn2 : (JSONArrayWriter.new (w.write_comma).1.writer).2 = true := by
      rw [arrNew_none _ hcb]
    have hnb : (JSONArrayWriter.new (w.write_comma).1.writer).1.writer.budget = none := by
      rw [arrNew_none _ hcb]
    rw [hn2]
    simp only [Bool.true_eq_false, if_false]
    have hb := runArrOps_inf ops (JSONArrayWriter.new (w.write_comma).1.writer).1 hnb
    cases ended
    · simp only [Bool.false_eq_true, if_false]
      have hd : (arrDrop (runArrOps ops (JSONArrayWriter.new (w.write_comma).1.writer).1).1).budget = none := by
        rw [arrDrop_none _ hb.1]
      exact ⟨hd, by rw [hb.2.1], hce⟩
    · simp only [eq_self_iff_true, if_true]
      have he1 : (arrEnd (runArrOps ops (JSONArrayWriter.new (w.write_comma).1.writer).1).1).1.budget = none := by
        rw [arrEnd_none _ hb.1]
      have he2 : (arrEnd (runArrOps ops (JSONArrayWriter.new (w.write_comma).1.writer).1).1).2 = true := by
        rw [arrEnd_none _ hb.1]
      exact ⟨he1, by simp [hb.2.1, he2], hce⟩

theorem runArrOps_inf (ops : List ArrOp) (w : JSONArrayWriter) (h : w.writer.budget = none) :
    (runArrOps ops w).1.writer.budget = none ∧ (runArrOps ops w).2 = true ∧
    (runArrOps ops w).1.empty = (w.empty && ops.isEmpty) := by
  match ops with
  | [] =>
    simp only [runArrOps, List.isEmpty_nil, Bool.and_true]
    exact ⟨h, trivial, trivial⟩
  | op :: rest =>
    simp only [runArrOps]
    have h1 := runArrOp_inf op w h
    have h2 := runArrOps_inf rest (runArrOp op w).1 h1.1
    refine ⟨h2.1, by simp [h1.2.1, h2.2.1], ?_⟩
    rw [h2.2.2, h1.2.2]
    simp

end

/-! ### Interpreter family 1: operations are balance-invariant -/

mutual

theorem runObjOp_bal (op : ObjOp) (w : JSONObjectWriter) (h : w.writer.budget = none)
    (ha : ObjOp.avoid S4 op = true) :
    BalInv w.writer.out (runObjOp op w).1.writer.out := by
  match op with
  | .member key v =>
    simp only [runObjOp, JSONObjectWriter.member]
    simp only [ObjOp.avoid, Bool.and_eq_true] at ha
    have hk2 : (w.write_key key).2 = true := by rw [objWriteKey_none w key h]
    have hkb : (w.write_key key).1.writer.budget = none := by rw [objWriteKey_none w key h]
    have hko : (w.write_key key).1.writer.out
        = w.writer.out ++ (if w.empty then [] else [44])
          ++ (34 :: (key.flatMap spec_escape ++ [34])) ++ [58] := by
      rw [objWriteKey_none w key h]
    rw [hk2]
    simp only [Bool.true_eq_false, if_false]
    have hkey : BalInv w.writer.out (w.write_key key).1.writer.out := by
      rw [hko]
      have := BalInv_append (o := w.writer.out) (keychunk_avoid4 w.empty ha.1)
      simpa [List.append_assoc] using this
    exact BalInv_trans hkey (writeValue_bal v _ hkb ha.2)
  | .key_only key =>
    simp only [runObjOp]
    simp only [ObjOp.avoid] at ha
    have hko : (w.write_key key).1.writer.out
        = w.writer.out ++ (if w.empty then [] else [44])
          ++ (34 :: (key.flatMap spec_escape ++ [34])) ++ [58] := by
      rw [objWriteKey_none w key h]
    rw [hko]
    have := BalInv_append (o := w.writer.out) (keychunk_avoid4 w.empty ha)
    simpa [List.append_assoc] using this
  | .comma_only =>
    simp only [runObjOp]
    have hco : (w.write_comma).1.writer.out
        = w.writer.out ++ (if w.empty then [] else [44]) := by
      rw [objComma_none w h]
    rw [hco]
    exact BalInv_append (ifcomma_avoid4 w.empty)
  | .nestObj key ops ended =>
    simp only [runObjOp]
    simp only [ObjOp.avoid, Bool.and_eq_true] at ha
    have hk2 : (w.write_key key).2 = true := by rw [objWriteKey_none w key h]
    have hkb : (w.write_key key).1.writer.budget = none := by rw [objWriteKey_none w key h]
    have hko : (w.write_key key).1.writer.out
        = w.writer.out ++ (if w.empty then [] else [44])
          ++ (34 :: (key.flatMap spec_escape ++ [34])) ++ [58] := by
      rw [objWriteKey_none w key h]
    rw [hk2]
    simp only [Bool.true_eq_false, if_false]
    have hn2 : (JSONObjectWriter.new (w.write_key key).1.writer).2 = true := by
      rw [objNew_none _ hkb]
    have hnb : (JSONObjectWriter.new (w.write_key key).1.writer).1.writer.budget = none := by
      rw [objNew_none _ hkb]
    have hno : (JSONObjectWriter.new (w.write_key key).1.writer).1.writer.out
        = (w.write_key key).1.writer.out ++ [123] := by
      rw [objNew_none _ hkb]
    rw [hn2]
    simp only [Bool.true_eq_false, if_false]
    have hbody := runObjOps_bal ops (JSONObjectWriter.new (w.write_key key).1.writer).1 hnb ha.2
    rw [hno] at hbody
    have hbud := (runObjOps_inf ops (JSONObjectWriter.new (w.write_key key).1.writer).1 hnb).1
    have hkey : BalInv w.writer.out (w.write_key key).1.writer.out := by
      rw [hko]
      have := BalInv_append (o := w.writer.out) (keychunk_avoid4 w.empty ha.1)
      simpa [List.append_assoc] using this
    cases ended
    · simp only [Bool.false_eq_true, if_false]
      have hdo : (objDrop (runObjOps ops (JSONObjectWriter.new (w.write_key key).1.writer).1).1).out
          = (runObjOps ops (JSONObjectWriter.new (w.write_key key).1.writer).1).1.writer.out
            ++ [125] := by
        rw [objDrop_none _ hbud]
      rw [hdo]
      exact BalInv_trans hkey (BalInv_wrap_curly hbody)
    · simp only [eq_self_iff_true, if_true]
      have heo : (objEnd (runObjOps ops (JSONObjectWriter.new (w.write_key key).1.writer).1).1).1.out
          = (runObjOps ops (JSONObjectWriter.new (w.write_key key).1.writer).1).1.writer.out
            ++ [125] := by
        rw [objEnd_none _ hbud]
      rw [heo]
      exact BalInv_trans hkey (BalInv_wrap_curly hbody)
  | .nestArr key ops ended =>
    simp only [runObjOp]
    simp only [ObjOp.avoid, Bool.and_eq_true] at ha
    have hk2 : (w.write_key key).2 = true := by rw [objWriteKey_none w key h]
    have hkb : (w.write_key key).1.writer.budget = none := by rw [objWriteKey_none w key h]
    have hko : (w.write_key key).1.writer.out
        = w.writer.out ++ (if w.empty then [] else [44])
          ++ (34 :: (key.flatMap spec_escape ++ [34])) ++ [58] := by
      rw [objWriteKey_none w key h]
    rw [hk2]
    simp only [Bool.true_eq_false, if_false]
    have hn2 : (JSONArrayWriter.new (w.write_key key).1.writer).2 = true := by
      rw [arrNew_none _ hkb]
    have hnb : (JSONArrayWriter.new (w.write_key key).1.writer).1.writer.budget = none := by
      rw [arrNew_none _ hkb]
    have hno : (JSONArrayWriter.new (w.write_key key).1.writer).1.writer.out
        = (w.write_key key).1.writer.out ++ [91] := by
      rw [arrNew_none _ hkb]
    rw [hn2]
    simp only [Bool.true_eq_false, if_false]
    have hbody := runArrOps_bal ops (JSONArrayWriter.new (w.write_key key).1.writer).1 hnb ha.2
    rw [hno] at hbody
    have hbud := (runArrOps_inf ops (JSONArrayWriter.new (w.write_key key).1.writer).1 hnb).1
    have hkey : BalInv w.writer.out (w.write_key key).1.writer.out := by
      rw [hko]
      have := BalInv_append (o := w.writer.out) (keychunk_avoid4 w.empty ha.1)
      simpa [List.append_assoc] using this
    cases ended
    · simp only [Bool.false_eq_true, if_false]
      have hdo : (arrDrop (runArrOps ops (JSONArrayWriter.new (w.write_key key).1.writer).1).1).out
          = (runArrOps ops (JSONArrayWriter.new (w.write_key key).1.writer).1).1.writer.out
            ++ [93] := by
        rw [arrDrop_none _ hbud]
      rw [hdo]
      exact BalInv_trans hkey (BalInv_wrap_square hbody)
    · simp only [eq_self_iff_true, if_true]
      have heo : (arrEnd (runArrOps ops (JSONArrayWriter.new (w.write_key key).1.writer).1).1).1.out
          = (runArrOps ops (JSONArrayWriter.new (w.write_key key).1.writer).1).1.writer.out
            ++ [93] := by
        rw [arrEnd_none _ hbud]
      rw [heo]
      exact BalInv_trans hkey (BalInv_wrap_square hbody)

theorem runObjOps_bal (ops : List ObjOp) (w : JSONObjectWriter) (h : w.writer.budget = none)
    (ha : objOpsAvoid S4 ops = true) :
    BalInv w.writer.out (runObjOps ops w).1.writer.out := by
  match ops with
  | [] =>
    simp only [runObjOps]
    exact BalInv_refl _
  | op :: rest =>
    simp only [runObjOps]
    simp only [objOpsAvoid, Bool.and_eq_true] at ha
    have h1 := runObjOp_bal op w h ha.1
    have hbud := (runObjOp_inf op w h).1
    exact BalInv_trans h1 (runObjOps_bal rest (runObjOp op w).1 hbud ha.2)

theorem runArrOp_bal (op : ArrOp) (w : JSONArrayWriter) (h : w.writer.budget = none)
    (ha : ArrOp.avoid S4 op = true) :
    BalInv w.writer.out (runArrOp op w).1.writer.out := by
  match op with
  | .value v =>
    simp only [runArrOp, JSONArrayWriter.value]
    simp only [ArrOp.avoid] at ha
    have hc2 : (w.write_comma).2 = true := by rw [arrComma_none w h]
    have hcb : (w.write_comma).1.writer.budget = none := by rw [arrComma_none w h]
    have hco : (w.write_comma).1.writer.out
        = w.writer.out ++ (if w.empty then [] else [44]) := by
      rw [arrComma_none w h]
    rw [hc2]
    simp only [Bool.true_eq_false, if_false]
    have hcomma : BalInv w.writer.out (w.write_comma).1.writer.out := by
      rw [hco]
      exact BalInv_append (ifcomma_avoid4 w.empty)
    exact BalInv_trans hcomma (writeValue_bal v _ hcb ha)
  | .comma_only =>
    simp only [runArrOp]
    have hco : (w.write_comma).1.writer.out
        = w.writer.out ++ (if w.empty then [] else [44]) := by
      rw [arrComma_none w h]
    rw [hco]
    exact BalInv_append (ifcomma_avoid4 w.empty)
  | .nestObj ops ended =>
    simp only [runArrOp]
    simp only [ArrOp.avoid] at ha
    have hc2 : (w.write_comma).2 = true := by rw [arrComma_none w h]
    have hcb : (w.write_comma).1.writer.budget = none := by rw [arrComma_none w h]
    have hco : (w.write_comma).1.writer.out
        = w.writer.out ++ (if w.empty then [] else [44]) := by
      rw [arrComma_none w h]
    rw [hc2]
    simp only [Bool.true_eq_false, if_false]
    have hn2 : (JSONObjectWriter.new (w.write_comma).1.writer).2 = true := by
      rw [objNew_none _ hcb]
    have hnb : (JSONObjectWriter.new (w.write_comma).1.writer).1.writer.budget = none := by
      rw [objNew_none _ hcb]
    have hno : (JSONObjectWriter.new (w.write_comma).1.writer).1.writer.out
        = (w.write_comma).1.writer.out ++ [123] := by
      rw [objNew_none _ hcb]
    rw [hn2]
    simp only [Bool.true_eq_false, if_false]
    have hbody := runObjOps_bal ops (JSONObjectWriter.new (w.write_comma).1.writer).1 hnb ha
    rw [hno] at hbody
    have hbud := (runObjOps_inf ops (JSONObjectWriter.new (w.write_comma).1.writer).1 hnb).1
    have hcomma : BalInv w.writer.out (w.write_comma).1.writer.out := by
      rw [hco]
      exact BalInv_append (ifcomma_avoid4 w.empty)
    cases ended
    · simp only [Bool.false_eq_true, if_false]
      have hdo : (objDrop (runObjOps ops (JSONObjectWriter.new (w.write_comma).1.writer).1).1).out
          = (runObjOps ops (JSONObjectWriter.new (w.write_comma).1.writer).1).1.writer.out
            ++ [125] := by
        rw [objDrop_none _ hbud]
      rw [hdo]
      exact BalInv_trans hcomma (BalInv_wrap_curly hbody)
    · simp only [eq_self_iff_true, if_true]
      have heo : (objEnd (runObjOps ops (JSONObjectWriter.new (w.write_comma).1.writer).1).1).1.out
          = (runObjOps ops (JSONObjectWriter.new (w.write_comma).1.writer).1).1.writer.out
            ++ [125] := by
        rw [objEnd_none _ hbud]
      rw [heo]
      exact BalInv_trans hcomma (BalInv_wrap_curly hbody)
  | .nestArr ops ended =>
    simp only [runArrOp]
    simp only [ArrOp.avoid] at ha
    have hc2 : (w.write_comma).2 = true := by rw [arrComma_none w h]
    have hcb : (w.write_comma).1.writer.budget = none := by rw [arrComma_none w h]
    have hco : (w.write_comma).1.writer.out
        = w.writer.out ++ (if w.empty then [] else [44]) := by
      rw [arrComma_none w h]
    rw [hc2]
    simp only [Bool.true_eq_false, if_false]
    have hn2 : (JSONArrayWriter.new (w.write_comma).1.writer).2 = true := by
      rw [arrNew_none _ hcb]
    have hnb : (JSONArrayWriter.new (w.write_comma).1.writer).1.writer.budget = none := by
      rw [arrNew_none _ hcb]
    have hno : (JSONArrayWriter.new (w.write_comma).1.writer).1.writer.out
        = (w.write_comma).1.writer.out ++ [91] := by
      rw [arrNew_none _ hcb]
    rw [hn2]
    simp only [Bool.true_eq_false, if_false]
    have hbody := runArrOps_bal ops (JSONArrayWriter.new (w.write_comma).1.writer).1 hnb ha
    rw [hno] at hbody
    have hbud := (runArrOps_inf ops (JSONArrayWriter.new (w.write_comma).1.writer).1 hnb).1
    have hcomma : BalInv w.writer.out (w.write_comma).1.writer.out := by
      rw [hco]
      exact BalInv_append (ifcomma_avoid4 w.empty)
    cases ended
    · simp only [Bool.false_eq_true, if_false]
      have hdo : (arrDrop (runArrOps ops (JSONArrayWriter.new (w.write_comma).1.writer).1).1).out
          = (runArrOps ops (JSONArrayWriter.new (w.write_comma).1.writer).1).1.writer.out
            ++ [93] := by
        rw [arrDrop_none _ hbud]
      rw [hdo]
      exact BalInv_trans hcomma (BalInv_wrap_square hbody)
    · simp only [eq_self_iff_true, if_true]
      have heo : (arrEnd (runArrOps ops (JSONArrayWriter.new (w.write_comma).1.writer).1).1).1.out
          = (runArrOps ops (JSONArrayWriter.new (w.write_comma).1.writer).1).1.writer.out
            ++ [93] := by
        rw [arrEnd_none _ hbud]
      rw [heo]
      exact BalInv_trans hcomma (BalInv_wrap_square hbody)

theorem runArrOps_bal (ops : List ArrOp) (w : JSONArrayWriter) (h : w.writer.budget = none)
    (ha : arrOpsAvoid S4 ops = true) :
    BalInv w.writer.out (runArrOps ops w).1.writer.out := by
  match ops with
  | [] =>
    simp only [runArrOps]
    exact BalInv_refl _
  | op :: rest =>
    simp only [runArrOps]
    simp only [arrOpsAvoid, Bool.and_eq_true] at ha
    have h1 := runArrOp_bal op w h ha.1
    have hbud := (runArrOp_inf op w h).1
    exact BalInv_trans h1 (runArrOps_bal rest (runArrOp op w).1 hbud ha.2)

end

/-! ### Interpreter family 2: comma counts at the builder level -/

/-- Top-level commas added by a run of `n` operations on a builder whose
empty flag is `e`: one per operation except the first when the builder is
still empty. -/
def opsAdd (e : Bool) (n : Nat) : Nat := if e then n - 1 else n

theorem ComInv_cast {a b : Nat} {o m : List Nat} (h : ComInv a o m) (e : a = b) :
    ComInv b o m := e ▸ h

mutual

theorem runObjOp_com (op : ObjOp) (w : JSONObjectWriter) (h : w.writer.budget = none)
    (ha : ObjOp.avoid S5 op = true) :
    ComInv (if w.empty then 0 else 1) w.writer.out (runObjOp op w).1.writer.out := by
  match op with
  | .member key v =>
    simp only [runObjOp, JSONObjectWriter.member]
    simp only [ObjOp.avoid, Bool.and_eq_true] at ha
    have hk2 : (w.write_key key).2 = true := by rw [objWriteKey_none w key h]
    have hkb : (w.write_key key).1.writer.budget = none := by rw [objWriteKey_none w key h]
    have hko : (w.write_key key).1.writer.out
        = w.writer.out ++ (if w.empty then [] else [44])
          ++ (34 :: (key.flatMap spec_escape ++ [34])) ++ [58] := by
      rw [objWriteKey_none w key h]
    rw [hk2]
    simp only [Bool.true_eq_false, if_false]
    have hkey : ComInv (if w.empty then 0 else 1) w.writer.out
        (w.write_key key).1.writer.out := by
      rw [hko]
      have hstep := ComInv_append_neutral (o := w.writer.out ++ (if w.empty then [] else [44]))
        (keyrest_avoid5 ha.1)
      have := ComInv_trans (ComInv_ifcomma w.empty w.writer.out) hstep
      simpa [List.append_assoc] using this
    exact ComInv_trans hkey (writeValue_com v _ hkb ha.2)
  | .key_only key =>
    simp only [runObjOp]
    simp only [ObjOp.avoid] at ha
    have hko : (w.write_key key).1.writer.out
        = w.writer.out ++ (if w.empty then [] else [44])
          ++ (34 :: (key.flatMap spec_escape ++ [34])) ++ [58] := by
      rw [objWriteKey_none w key h]
    rw [hko]
    have hstep := ComInv_append_neutral (o := w.writer.out ++ (if w.empty then [] else [44]))
      (keyrest_avoid5 ha)
    have := ComInv_trans (ComInv_ifcomma w.empty w.writer.out) hstep
    simpa [List.append_assoc] using this
  | .comma_only =>
    simp only [runObjOp]
    have hco : (w.write_comma).1.writer.out
        = w.writer.out ++ (if w.empty then [] else [44]) := by
      rw [objComma_none w h]
    rw [hco]
    exact ComInv_ifcomma w.empty w.writer.out
  | .nestObj key ops ended =>
    simp only [runObjOp]
    simp only [ObjOp.avoid, Bool.and_eq_true] at ha
    have hk2 : (w.write_key key).2 = true := by rw [objWriteKey_none w key h]
    have hkb : (w.write_key key).1.writer.budget = none := by rw [objWriteKey_none w key h]
    have hko : (w.write_key key).1.writer.out
        = w.writer.out ++ (if w.empty then [] else [44])
          ++ (34 :: (key.flatMap spec_escape ++ [34])) ++ [58] := by
      rw [objWriteKey_none w key h]
    rw [hk2]
    simp only [Bool.true_eq_false, if_false]
    have hn2 : (JSONObjectWriter.new (w.write_key key).1.writer).2 = true := by
      rw [objNew_none _ hkb]
    have hnb : (JSONObjectWriter.new (w.write_key key).1.writer).1.writer.budget = none := by
      rw [objNew_none _ hkb]
    have hno : (JSONObjectWriter.new (w.write_key key).1.writer).1.writer.out
        = (w.write_key key).1.writer.out ++ [123] := by
      rw [objNew_none _ hkb]
    rw [hn2]
    simp only [Bool.true_eq_false, if_false]
    have hbody := runObjOps_com ops (JSONObjectWriter.new (w.write_key key).1.writer).1 0
      ((w.write_key key).1.writer.out ++ [123]) hnb ha.2 (by rw [hno]; exact ComInv_refl _)
    have hbud := (runObjOps_inf ops (JSONObjectWriter.new (w.write_key key).1.writer).1 hnb).1
    have hkey : ComInv (if w.empty then 0 else 1) w.writer.out
        (w.write_key key).1.writer.out := by
      rw [hko]
      have hstep := ComInv_append_neutral (o := w.writer.out ++ (if w.empty then [] else [44]))
        (keyrest_avoid5 ha.1)
      have := ComInv_trans (ComInv_ifcomma w.empty w.writer.out) hstep
      simpa [List.append_assoc] using this
    cases ended
    · simp only [Bool.false_eq_true, if_false]
      have hdo : (objDrop (runObjOps ops (JSONObjectWriter.new (w.write_key key).1.writer).1).1).out
          = (runObjOps ops (JSONObjectWriter.new (w.write_key key).1.writer).1).1.writer.out
            ++ [125] := by
        rw [objDrop_none _ hbud]
      rw [hdo]
      exact ComInv_trans hkey (ComInv_wrap_curly hbody)
    · simp only [eq_self_iff_true, if_true]
      have heo : (objEnd (runObjOps ops (JSONObjectWriter.new (w.write_key key).1.writer).1).1).1.out
          = (runObjOps ops (JSONObjectWriter.new (w.write_key key).1.writer).1).1.writer.out
            ++ [125] := by
        rw [objEnd_none _ hbud]
      rw [heo]
      exact ComInv_trans hkey (ComInv_wrap_curly hbody)
  | .nestArr key ops ended =>
    simp only [runObjOp]
    simp only [ObjOp.avoid, Bool.and_eq_true] at ha
    have hk2 : (w.write_key key).2 = true := by rw [objWriteKey_none w key h]
    have hkb : (w.write_key key).1.writer.budget = none := by rw [objWriteKey_none w key h]
    have hko : (w.write_key key).1.writer.out
        = w.writer.out ++ (if w.empty then [] else [44])
          ++ (34 :: (key.flatMap spec_escape ++ [34])) ++ [58] := by
      rw [objWriteKey_none w key h]
    rw [hk2]
    simp only [Bool.true_eq_false, if_false]
    have hn2 : (JSONArrayWriter.new (w.write_key key).1.writer).2 = true := by
      rw [arrNew_none _ hkb]
    have hnb : (JSONArrayWriter.new (w.write_key key).1.writer).1.writer.budget = none := by
      rw [arrNew_none _ hkb]
    have hno : (JSONArrayWriter.new (w.write_key key).1.writer).1.writer.out
        = (w.write_key key).1.writer.out ++ [91] := by
      rw [arrNew_none _ hkb]
    rw [hn2]
    simp only [Bool.true_eq_false, if_false]
    have hbody := runArrOps_com ops (JSONArrayWriter.new (w.write_key key).1.writer).1 0
      ((w.write_key key).1.writer.out ++ [91]) hnb ha.2 (by rw [hno]; exact ComInv_refl _)
    have hbud := (runArrOps_inf ops (JSONArrayWriter.new (w.write_key key).1.writer).1 hnb).1
    have hkey : ComInv (if w.empty then 0 else 1) w.writer.out
        (w.write_key key).1.writer.out := by
      rw [hko]
      have hstep := ComInv_append_neutral (o := w.writer.out ++ (if w.empty then [] else [44]))
        (keyrest_avoid5 ha.1)
      have := ComInv_trans (ComInv_ifcomma w.empty w.writer.out) hstep
      simpa [List.append_assoc] using this
    cases ended
    · simp only [Bool.false_eq_true, if_false]
      have hdo : (arrDrop (runArrOps ops (JSONArrayWriter.new (w.write_key key).1.writer).1).1).out
          = (runArrOps ops (JSONArrayWriter.new (w.write_key key).1.writer).1).1.writer.out
            ++ [93] := by
        rw [arrDrop_none _ hbud]
      rw [hdo]
      exact ComInv_trans hkey (ComInv_wrap_square hbody)
    · simp only [eq_self_iff_true, if_true]
      have heo : (arrEnd (runArrOps ops (JSONArrayWriter.new (w.write_key key).1.writer).1).1).1.out
          = (runArrOps ops (JSONArrayWriter.new (w.write_key key).1.writer).1).1.writer.out
            ++ [93] := by
        rw [arrEnd_none _ hbud]
      rw [heo]
      exact ComInv_trans hkey (ComInv_wrap_square hbody)

theorem runObjOps_com (ops : List ObjOp) (w : JSONObjectWriter) (a : Nat) (o : List Nat)
    (h : w.writer.budget = none) (ha : objOpsAvoid S5 ops = true)
    (hprev : ComInv a o w.writer.out) :
    ComInv (a + opsAdd w.empty ops.length) o (runObjOps ops w).1.writer.out := by
  match ops with
  | [] =>
    simp only [runObjOps, List.length_nil]
    exact ComInv_cast hprev (by cases hw : w.empty <;> simp [opsAdd])
  | op :: rest =>
    simp only [runObjOps]
    simp only [objOpsAvoid, Bool.and_eq_true] at ha
    have h1 := runObjOp_com op w h ha.1
    have hbud := (runObjOp_inf op w h).1
    have hemp := (runObjOp_inf op w h).2.2
    have hrest := runObjOps_com rest (runObjOp op w).1 (a + (if w.empty then 0 else 1)) o hbud
      ha.2 (ComInv_trans hprev h1)
    rw [hemp] at hrest
    refine ComInv_cast hrest ?_
    cases hw : w.empty <;> simp [opsAdd] <;> omega

theorem runArrOp_com (op : ArrOp) (w : JSONArrayWriter) (h : w.writer.budget = none)
    (ha : ArrOp.avoid S5 op = true) :
    ComInv (if w.empty then 0 else 1) w.writer.out (runArrOp op w).1.writer.out := by
  match op with
  | .value v =>
    simp only [runArrOp, JSONArrayWriter.value]
    simp only [ArrOp.avoid] at ha
    have hc2 : (w.write_comma).2 = true := by rw [arrComma_none w h]
    have hcb : (w.write_comma).1.writer.budget = none := by rw [arrComma_none w h]
    have hco : (w.write_comma).1.writer.out
        = w.writer.out ++ (if w.empty then [] else [44]) := by
      rw [arrComma_none w h]
    rw [hc2]
    simp only [Bool.true_eq_false, if_false]
    have hcomma : ComInv (if w.empty then 0 else 1) w.writer.out
        (w.write_comma).1.writer.out := by
      rw [hco]
      exact ComInv_ifcomma w.empty w.writer.out
    exact ComInv_trans hcomma (writeValue_com v _ hcb ha)
  | .comma_only =>
    simp only [runArrOp]
    have hco : (w.write_comma).1.writer.out
        = w.writer.out ++ (if w.empty then [] else [44]) := by
      rw [arrComma_none w h]
    rw [hco]
    exact ComInv_ifcomma w.empty w.writer.out
  | .nestObj ops ended =>
    simp only [runArrOp]
    simp only [ArrOp.avoid] at ha
    have hc2 : (w.write_comma).2 = true := by rw [arrComma_none w h]
    have hcb : (w.write_comma).1.writer.budget = none := by rw [arrComma_none w h]
    have hco : (w.write_comma).1.writer.out
        = w.writer.out ++ (if w.empty then [] else [44]) := by
      rw [arrComma_none w h]
    rw [hc2]
    simp only [Bool.true_eq_false, if_false]
    have hn2 : (JSONObjectWriter.new (w.write_comma).1.writer).2 = true := by
      rw [objNew_none _ hcb]
    have hnb : (JSONObjectWriter.new (w.write_comma).1.writer).1.writer.budget = none := by
      rw [objNew_none _ hcb]
    have hno : (JSONObjectWriter.new (w.write_comma).1.writer).1.writer.out
        = (w.write_comma).1.writer.out ++ [123] := by
      rw [objNew_none _ hcb]
    rw [hn2]
    simp only [Bool.true_eq_false, if_false]
    have hbody := runObjOps_com ops (JSONObjectWriter.new (w.write_comma).1.writer).1 0
      ((w.write_comma).1.writer.out ++ [123]) hnb ha (by rw [hno]; exact ComInv_refl _)
    have hbud := (runObjOps_inf ops (JSONObjectWriter.new (w.write_comma).1.writer).1 hnb).1
    have hcomma : ComInv (if w.empty then 0 else 1) w.writer.out
        (w.write_comma).1.writer.out := by
      rw [hco]
      exact ComInv_ifcomma w.empty w.writer.out
    cases ended
    · simp only [Bool.false_eq_true, if_false]
      have hdo : (objDrop (runObjOps ops (JSONObjectWriter.new (w.write_comma).1.writer).1).1).out
          = (runObjOps ops (JSONObjectWriter.new (w.write_comma).1.writer).1).1.writer.out
            ++ [125] := by
        rw [objDrop_none _ hbud]
      rw [hdo]
      exact ComInv_trans hcomma (ComInv_wrap_curly hbody)
    · simp only [eq_self_iff_true, if_true]
      have heo : (objEnd (runObjOps ops (JSONObjectWriter.new (w.write_comma).1.writer).1).1).1.out
          = (runObjOps ops (JSONObjectWriter.new (w.write_comma).1.writer).1).1.writer.out
            ++ [125] := by
        rw [objEnd_none _ hbud]
      rw [heo]
      exact ComInv_trans hcomma (ComInv_wrap_curly hbody)
  | .nestArr ops ended =>
    simp only [runArrOp]
    simp only [ArrOp.avoid] at ha
    have hc2 : (w.write_comma).2 = true := by rw [arrComma_none w h]
    have hcb : (w.write_comma).1.writer.budget = none := by rw [arrComma_none w h]
    have hco : (w.write_comma).1.writer.out
        = w.writer.out ++ (if w.empty then [] else [44]) := by
      rw [arrComma_none w h]
    rw [hc2]
    simp only [Bool.true_eq_false, if_false]
    have hn2 : (JSONArrayWriter.new (w.write_comma).1.writer).2 = true := by
      rw [arrNew_none _ hcb]
    have hnb : (JSONArrayWriter.new (w.write_comma).1.writer).1.writer.budget = none := by
      rw [arrNew_none _ hcb]
    have hno : (JSONArrayWriter.new (w.write_comma).1.writer).1.writer.out
        = (w.write_comma).1.writer.out ++ [91] := by
      rw [arrNew_none _ hcb]
    rw [hn2]
    simp only [Bool.true_eq_false, if_false]
    have hbody := runArrOps_com ops (JSONArrayWriter.new (w.write_comma).1.writer).1 0
      ((w.write_comma).1.writer.out ++ [91]) hnb ha (by rw [hno]; exact ComInv_refl _)
    have hbud := (runArrOps_inf ops (JSONArrayWriter.new (w.write_comma).1.writer).1 hnb).1
    have hcomma : ComInv (if w.empty then 0 else 1) w.writer.out
        (w.write_comma).1.writer.out := by
      rw [hco]
      exact ComInv_ifcomma w.empty w.writer.out
    cases ended
    · simp only [Bool.false_eq_true, if_false]
      have hdo : (arrDrop (runArrOps ops (JSONArrayWriter.new (w.write_comma).1.writer).1).1).out
          = (runArrOps ops (JSONArrayWriter.new (w.write_comma).1.writer).1).1.writer.out
            ++ [93] := by
        rw [arrDrop_none _ hbud]
      rw [hdo]
      exact ComInv_trans hcomma (ComInv_wrap_square hbody)
    · simp only [eq_self_iff_true, if_true]
      have heo : (arrEnd (runArrOps ops (JSONArrayWriter.new (w.write_comma).1.writer).1).1).1.out
          = (runArrOps ops (JSONArrayWriter.new (w.write_comma).1.writer).1).1.writer.out
            ++ [93] := by
        rw [arrEnd_none _ hbud]
      rw [heo]
      exact ComInv_trans hcomma (ComInv_wrap_square hbody)

theorem runArrOps_com (ops : List ArrOp) (w : JSONArrayWriter) (a : Nat) (o : List Nat)
    (h : w.writer.budget = none) (ha : arrOpsAvoid S5 ops = true)
    (hprev : ComInv a o w.writer.out) :
    ComInv (a + opsAdd w.empty ops.length) o (runArrOps ops w).1.writer.out := by
  match ops with
  | [] =>
    simp only [runArrOps, List.length_nil]
    exact ComInv_cast hprev (by cases hw : w.empty <;> simp [opsAdd])
  | op :: rest =>
    simp only [runArrOps]
    simp only [arrOpsAvoid, Bool.and_eq_true] at ha
    have h1 := runArrOp_com op w h ha.1
    have hbud := (runArrOp_inf op w h).1
    have hemp := (runArrOp_inf op w h).2.2
    have hrest := runArrOps_com rest (runArrOp op w).1 (a + (if w.empty then 0 else 1)) o hbud
      ha.2 (ComInv_trans hprev h1)
    rw [hemp] at hrest
    refine ComInv_cast hrest ?_
    cases hw : w.empty <;> simp [opsAdd] <;> omega

end

/-! ### Decimal-digit facts for the integer formatter -/

/-- The numeric value denoted by a most-significant-first digit string. -/
def digitsVal (l : List Nat) : Nat := l.foldl (fun a d => 10 * a + (d - 48)) 0

theorem digitsVal_append (l : List Nat) (d : Nat) :
    digitsVal (l ++ [d]) = 10 * digitsVal l + (d - 48) := by
  unfold digitsVal
  rw [List.foldl_append]
  rfl

theorem digitsVal_natDigits (n : Nat) : digitsVal (natDigits n) = n := by
  induction n using Nat.strong_induction_on with
  | _ n ih =>
    rw [natDigits.eq_def]
    split
    · unfold digitsVal
      simp
    · rw [digitsVal_append, ih (n / 10) (Nat.div_lt_self (by omega) (by omega))]
      omega

theorem natDigits_ne_nil (n : Nat) : natDigits n ≠ [] := by
  rw [natDigits.eq_def]
  split
  · simp
  · simp

theorem natDigits_zero : natDigits 0 = [48] := by
  rw [natDigits.eq_def]
  norm_num

theorem natDigits_head (n : Nat) (h : n ≠ 0) : (natDigits n).head? ≠ some 48 := by
  induction n using Nat.strong_induction_on with
  | _ n ih =>
    rw [natDigits.eq_def]
    split
    · simp
      omega
    · rw [List.head?_append_of_ne_nil _ (natDigits_ne_nil (n / 10))]
      exact ih (n / 10) (Nat.div_lt_self (by omega) (by omega)) (by omega)

/-! ### Root-program balance -/

theorem balanced_of_BalInv {m : List Nat} (h : BalInv [] m) :
    m.count 123 = m.count 125 ∧ m.count 91 = m.count 93 ∧ balRun [] m = some [] := by
  obtain ⟨hs, hc, hd⟩ := h
  refine ⟨?_, ?_, ?_⟩
  · simp [List.count_nil] at hc
    omega
  · simp [List.count_nil] at hd
    omega
  · rw [hs []]
    rfl

theorem runProgramObj_balanced (ops : List ObjOp) (ended : Bool)
    (h1 : objOpsAvoid S4 ops = true) :
    (runProgramObj ops ended).out.count 123 = (runProgramObj ops ended).out.count 125 ∧
    (runProgramObj ops ended).out.count 91 = (runProgramObj ops ended).out.count 93 ∧
    balRun [] (runProgramObj ops ended).out = some [] := by
  unfold runProgramObj
  have hw1 : (write_object { out := [], budget := none }).1
      = { writer := { out := [123], budget := none }, empty := true } := by
    unfold write_object
    rw [objNew_none _ rfl]
    rfl
  rw [hw1]
  have hbal := runObjOps_bal ops { writer := { out := [123], budget := none }, empty := true }
    rfl h1
  have hbud := (runObjOps_inf ops { writer := { out := [123], budget := none }, empty := true }
    rfl).1
  have hB : BalInv ([] : List Nat)
      ((runObjOps ops { writer := { out := [123], budget := none }, empty := true }).1.writer.out
        ++ [125]) :=
    BalInv_wrap_curly hbal
  cases ended
  · simp only [Bool.false_eq_true, if_false]
    have hdo : (objDrop (runObjOps ops
          { writer := { out := [123], budget := none }, empty := true }).1).out
        = (runObjOps ops
            { writer := { out := [123], budget := none }, empty := true }).1.writer.out
          ++ [125] := by
      rw [objDrop_none _ hbud]
    rw [hdo]
    exact balanced_of_BalInv hB
  · simp only [eq_self_iff_true, if_true]
    have heo : (objEnd (runObjOps ops
          { writer := { out := [123], budget := none }, empty := true }).1).1.out
        = (runObjOps ops
            { writer := { out := [123], budget := none }, empty := true }).1.writer.out
          ++ [125] := by
      rw [objEnd_none _ hbud]
    rw [heo]
    exact balanced_of_BalInv hB

theorem runProgramArr_balanced (ops : List ArrOp) (ended : Bool)
    (h1 : arrOpsAvoid S4 ops = true) :
    (runProgramArr ops ended).out.count 123 = (runProgramArr ops ended).out.count 125 ∧
    (runProgramArr ops ended).out.count 91 = (runProgramArr ops ended).out.count 93 ∧
    balRun [] (runProgramArr ops ended).out = some [] := by
  unfold runProgramArr
  have hw1 : (write_array { out := [], budget := none }).1
      = { writer := { out := [91], budget := none }, empty := true } := by
    unfold write_array
    rw [arrNew_none _ rfl]
    rfl
  rw [hw1]
  have hbal := runArrOps_bal ops { writer := { out := [91], budget := none }, empty := true }
    rfl h1
  have hbud := (runArrOps_inf ops { writer := { out := [91], budget := none }, empty := true }
    rfl).1
  have hB : BalInv ([] : List Nat)
      ((runArrOps ops { writer := { out := [91], budget := none }, empty := true }).1.writer.out
        ++ [93]) :=
    BalInv_wrap_square hbal
  cases ended
  · simp only [Bool.false_eq_true, if_false]
    have hdo : (arrDrop (runArrOps ops
          { writer := { out := [91], budget := none }, empty := true }).1).out
        = (runArrOps ops
            { writer := { out := [91], budget := none }, empty := true }).1.writer.out
          ++ [93] := by
      rw [arrDrop_none _ hbud]
    rw [hdo]
    exact balanced_of_BalInv hB
  · simp only [eq_self_iff_true, if_true]
    have heo : (arrEnd (runArrOps ops
          { writer := { out := [91], budget := none }, empty := true }).1).1.out
        = (runArrOps ops
            { writer := { out := [91], budget := none }, empty := true }).1.writer.out
          ++ [93] := by
      rw [arrEnd_none _ hbud]
    rw [heo]
    exact balanced_of_BalInv hB

/-- A single write call: behaviour of `end` seen through the sink model. -/
theorem endWrite_spec (s : Sink) (c : Nat) :
    ((s.writeChar c).2 = true → (s.writeChar c).1.out = s.out ++ [c] ∧
       ((s.writeChar c).1.out).count c = (s.out).count c + 1) ∧
    ((s.writeChar c).2 = false → (s.writeChar c).1.out = s.out) := by
  unfold Sink.writeChar Sink.writeStr
  match hb : s.budget with
  | none => simp [List.count_append]
  | some 0 => simp
  | some (k + 1) => simp [List.count_append]

/-! ### Example programs used by the witnesses -/

/-- Two appends: a member, then a nested array that is abandoned without
an explicit end. -/
def exampleObjOps : List ObjOp :=
  [ObjOp.member [97] (JValue.vint 1),
   ObjOp.nestArr [98] [ArrOp.value (JValue.vstr [104, 105])] false]

/-- Two appends: a boolean value, then a nested object ended explicitly. -/
def exampleArrOps : List ArrOp :=
  [ArrOp.value (JValue.vbool true), ArrOp.nestObj [] true]

/-! ### Claim theorems -/

/--
Claim C1 (confirmed).  For every input byte string on an infallible sink,
the escaped string body produced by the engine (`write_part_of_string`, and
`write_string` which surrounds it with quotes) is exactly the concatenation,
over the input bytes in order, of the per-byte escape `spec_escape` worded
from the specification table: `\"`, `\\`, `\/`, the five short escapes,
`\u00XX` with two uppercase hex digits for the remaining bytes below 0x20,
and every other byte (including all bytes at or above 0x80) unchanged.
-/
theorem claim_C1 (input : List Nat) (s : Sink) (h : s.budget = none) :
    write_part_of_string s input
      = ({ out := s.out ++ input.flatMap spec_escape, budget := none }, true) ∧
    write_string s input
      = ({ out := s.out ++ 34 :: (input.flatMap spec_escape ++ [34]), budget := none }, true) :=
  ⟨write_part_of_string_spec s input h, write_string_spec s input h⟩

/-- Witness for C1 at a concrete input covering a quote, a control byte, a
slash, a plain byte, and a byte above 0x80. -/
theorem claim_C1_witness :
    write_part_of_string { out := [], budget := none } [34, 8, 47, 65, 0, 200]
      = ({ out := [] ++ [34, 8, 47, 65, 0, 200].flatMap spec_escape, budget := none }, true) :=
  (claim_C1 [34, 8, 47, 65, 0, 200] { out := [], budget := none } rfl).1

/--
Claim C3 (confirmed).  For any sequence of builder operations on an
infallible sink (so every write succeeds), including programs whose
nested builders are abandoned without an explicit end and whatever the
fate of the root builder, the produced output has equally many opening
and closing braces, equally many opening and closing square brackets, and
passes the standard bracket-matching check.  The embedded text (keys,
string contents, abstracted float texts) is required to avoid the four
bracket bytes so that every bracket in the output is structural, which is
the reading the claim fixes with "written as structure".
-/
theorem claim_C3 (ops : List ObjOp) (aops : List ArrOp) (endedO endedA : Bool)
    (h1 : objOpsAvoid S4 ops = true) (h2 : arrOpsAvoid S4 aops = true) :
    ((runProgramObj ops endedO).out.count 123 = (runProgramObj ops endedO).out.count 125 ∧
     (runProgramObj ops endedO).out.count 91 = (runProgramObj ops endedO).out.count 93 ∧
     balRun [] (runProgramObj ops endedO).out = some []) ∧
    ((runProgramArr aops endedA).out.count 123 = (runProgramArr aops endedA).out.count 125 ∧
     (runProgramArr aops endedA).out.count 91 = (runProgramArr aops endedA).out.count 93 ∧
     balRun [] (runProgramArr aops endedA).out = some []) :=
  ⟨runProgramObj_balanced ops endedO h1, runProgramArr_balanced aops endedA h2⟩

/-- Witness for C3: an object program with an abandoned nested array and
an array program with an explicitly ended nested object. -/
theorem claim_C3_witness :
    balRun [] (runProgramObj exampleObjOps false).out = some [] ∧
    balRun [] (runProgramArr exampleArrOps true).out = some [] :=
  ⟨(claim_C3 exampleObjOps exampleArrOps false true
      (by simp [exampleObjOps, objOpsAvoid, ObjOp.avoid, ArrOp.avoid, arrOpsAvoid,
        JValue.avoid, bavoid, S4])
      (by simp [exampleArrOps, objOpsAvoid, ObjOp.avoid, ArrOp.avoid, arrOpsAvoid,
        JValue.avoid, bavoid, S4])).1.2.2,
   (claim_C3 exampleObjOps exampleArrOps false true
      (by simp [exampleObjOps, objOpsAvoid, ObjOp.avoid, ArrOp.avoid, arrOpsAvoid,
        JValue.avoid, bavoid, S4])
      (by simp [exampleArrOps, objOpsAvoid, ObjOp.avoid, ArrOp.avoid, arrOpsAvoid,
        JValue.avoid, bavoid, S4])).2.2.2⟩

/--
Claim C4 (confirmed).  Appending N members to one object builder, or N
values to one array builder, through the append operations emits exactly
N-1 commas at that nesting level (Nat subtraction: zero commas when N is
0 or 1): the comma count of the bytes the builder writes, measured by the
stack-based scanner at the builder's own level, is N-1.  The embedded
text is required to avoid bracket and comma bytes so that every comma at
that level is a separator.
-/
theorem claim_C4 (ops : List ObjOp) (aops : List ArrOp)
    (ho : ops.all ObjOp.isAppend = true) (ha : aops.all ArrOp.isAppend = true)
    (h1 : objOpsAvoid S5 ops = true) (h2 : arrOpsAvoid S5 aops = true) :
    (commaScan []
      ((runObjOps ops { writer := { out := [], budget := none }, empty := true }).1.writer.out)).1
      = ops.length - 1 ∧
    (commaScan []
      ((runArrOps aops { writer := { out := [], budget := none }, empty := true }).1.writer.out)).1
      = aops.length - 1 := by
  constructor
  · have hc := runObjOps_com ops { writer := { out := [], budget := none }, empty := true } 0 []
      rfl h1 (ComInv_refl [])
    have := (hc []).1
    simpa [commaScan, opsAdd] using this
  · have hc := runArrOps_com aops { writer := { out := [], budget := none }, empty := true } 0 []
      rfl h2 (ComInv_refl [])
    have := (hc []).1
    simpa [commaScan, opsAdd] using this

/-- Witness for C4 at two concrete two-append programs. -/
theorem claim_C4_witness :
    (commaScan []
      ((runObjOps exampleObjOps
        { writer := { out := [], budget := none }, empty := true }).1.writer.out)).1
      = exampleObjOps.length - 1 :=
  (claim_C4 exampleObjOps exampleArrOps
    (by simp [exampleObjOps, ObjOp.isAppend])
    (by simp [exampleArrOps, ArrOp.isAppend])
    (by simp [exampleObjOps, objOpsAvoid, ObjOp.avoid, ArrOp.avoid, arrOpsAvoid,
      JValue.avoid, bavoid, S5])
    (by simp [exampleArrOps, objOpsAvoid, ObjOp.avoid, ArrOp.avoid, arrOpsAvoid,
      JValue.avoid, bavoid, S5])).1

/--
Claim C7 (confirmed).  Explicit `end` performs exactly the one closing
bracket write and returns that write's result, so a sink failure there is
observable: on success the output gains exactly one closing bracket (its
count increases by one), on failure the output is unchanged.  In the
source, `std::mem::forget(self)` in `end` removes the drop cleanup, which
is embedded here by `objEnd` and `arrEnd` not being composed with
`objDrop` and `arrDrop` on any path; consequently no second closing
bracket is ever written for an explicitly ended builder.
-/
theorem claim_C7 (ow : JSONObjectWriter) (aw : JSONArrayWriter) :
    ((objEnd ow).2 = (ow.writer.writeChar 125).2) ∧
    ((objEnd ow).2 = true → (objEnd ow).1.out = ow.writer.out ++ [125] ∧
       ((objEnd ow).1.out).count 125 = (ow.writer.out).count 125 + 1) ∧
    ((objEnd ow).2 = false → (objEnd ow).1.out = ow.writer.out) ∧
    ((arrEnd aw).2 = (aw.writer.writeChar 93).2) ∧
    ((arrEnd aw).2 = true → (arrEnd aw).1.out = aw.writer.out ++ [93] ∧
       ((arrEnd aw).1.out).count 93 = (aw.writer.out).count 93 + 1) ∧
    ((arrEnd aw).2 = false → (arrEnd aw).1.out = aw.writer.out) :=
  ⟨rfl, (endWrite_spec ow.writer 125).1, (endWrite_spec ow.writer 125).2,
   rfl, (endWrite_spec aw.writer 93).1, (endWrite_spec aw.writer 93).2⟩

/-- Witness for C7: a succeeding end writes the bracket, a failing end
leaves the output unchanged. -/
theorem claim_C7_witness :
    (objEnd { writer := { out := [], budget := none }, empty := true }).1.out = [] ++ [125] ∧
    (arrEnd { writer := { out := [], budget := some 0 }, empty := true }).1.out = [] :=
  ⟨((claim_C7 { writer := { out := [], budget := none }, empty := true }
      { writer := { out := [], budget := none }, empty := true }).2.1 rfl).1,
   (claim_C7 { writer := { out := [], budget := some 0 }, empty := true }
      { writer := { out := [], budget := some 0 }, empty := true }).2.2.2.2.2 rfl⟩

/--
Claim C10 (confirmed).  `to_json_string` encodes into a fresh String
buffer, whose Write impl never fails; in the model the fresh infallible
sink has budget `none`, every write on it succeeds, and the internal
`write_json` call returns success for every encodable value, so the
`unwrap` in the source can never panic and `to_json_string` totally
returns the encoded text.
-/
theorem claim_C10 (v : JValue) :
    (writeValue v { out := [], budget := none }).2 = true ∧
    to_json_string v = (writeValue v { out := [], budget := none }).1.out :=
  ⟨(writeValue_inf v { out := [], budget := none } rfl).2, rfl⟩

/-- A sink whose first write call succeeds and whose second fails: the
opening bracket of a container lands, the closing bracket written during
the drop of its internal builder does not. -/
def failing_sink : Sink := { out := [], budget := some 1 }

/--
Counterexample to claim C2 as stated.  Encoding the empty slice on
`failing_sink` triggers two sink writes, the opening bracket (succeeds)
and the closing bracket written when the container finishes its internal
builder (fails, inside the drop cleanup of the internal array writer).
The operation nevertheless returns success, with the unbalanced output
`[` and the budget exhausted: the closing-bracket failure did not
propagate, contradicting "returns the write failure if and only if a sink
write it triggered failed".
-/
theorem claim_C2_counterexample :
    (slice_write_json writeValue ([] : List JValue) failing_sink).2 = true ∧
    (slice_write_json writeValue ([] : List JValue) failing_sink).1.out = [91] ∧
    (slice_write_json writeValue ([] : List JValue) failing_sink).1.budget = some 0 :=
  ⟨rfl, rfl, rfl⟩

/--
Claim C2 as amended (corrected).  For the container encodings (the slice
impl, which Vec delegates to, and the map impls): when no triggered sink
write fails the operation returns success; a failure of the opening
bracket write propagates unchanged, and a failure inside an element or
member encoding propagates unchanged to the caller (the internal builder
still being closed best-effort by its drop); but the closing bracket
written when the container finishes its internal builder is written on
the drop path and its failure is discarded, so that write is the one
exception to the propagation rule.
-/
theorem claim_C2_amended (items : List JValue) (pairs : List (List Nat × JValue)) (s : Sink) :
    (s.budget = none → (slice_write_json writeValue items s).2 = true) ∧
    ((JSONArrayWriter.new s).2 = false →
       slice_write_json writeValue items s = ((JSONArrayWriter.new s).1.writer, false)) ∧
    (∀ (v : JValue) (rest : List JValue) (aw : JSONArrayWriter),
       (aw.value (writeValue v)).2 = false →
       slice_go writeValue (v :: rest) aw = (arrDrop (aw.value (writeValue v)).1, false)) ∧
    (s.budget = none → (map_write_json writeValue pairs s).2 = true) ∧
    ((JSONObjectWriter.new s).2 = false →
       map_write_json writeValue pairs s = ((JSONObjectWriter.new s).1.writer, false)) ∧
    (∀ (k : List Nat) (v : JValue) (rest : List (List Nat × JValue)) (ow : JSONObjectWriter),
       (ow.member k (writeValue v)).2 = false →
       map_go writeValue ((k, v) :: rest) ow = (objDrop (ow.member k (writeValue v)).1, false)) := by
  refine ⟨?_, ?_, ?_, ?_, ?_, ?_⟩
  · intro hb
    unfold slice_write_json
    rw [arrNew_none s hb]
    simp only [Bool.true_eq_false, if_false]
    rw [← writeArrItems_eq_slice_go]
    exact (writeArrItems_inf items _ (by simp)).2
  · intro hf
    unfold slice_write_json
    simp only [hf]
    simp
  · intro v rest aw hf
    simp only [slice_go]
    rw [hf]
    simp
  · intro hb
    unfold map_write_json
    rw [objNew_none s hb]
    simp only [Bool.true_eq_false, if_false]
    rw [← writeObjPairs_eq_map_go]
    exact (writeObjPairs_inf pairs _ (by simp)).2
  · intro hf
    unfold map_write_json
    simp only [hf]
    simp
  · intro k v rest ow hf
    simp only [map_go]
    rw [hf]
    simp

/-- Witness for the amended C2: on an infallible sink the slice and map
encodings return success. -/
theorem claim_C2_witness :
    (slice_write_json writeValue ([] : List JValue) { out := [], budget := none }).2 = true ∧
    (map_write_json writeValue ([] : List (List Nat × JValue))
      { out := [], budget := none }).2 = true :=
  ⟨(claim_C2_amended [] [] { out := [], budget := none }).1 rfl,
   (claim_C2_amended [] [] { out := [], budget := none }).2.2.2.1 rfl⟩

/--
Counterexample to claim C6 as stated.  The claim says integers of any
width and signedness are encodable, but the source has `JSONWriterValue`
impls only for the 8-, 16- and 32-bit integer types: no 64-bit signed
integer impl exists (`int_impls` reifies the impl list at lines 477-538).
-/
theorem claim_C6_counterexample : ¬ ((64, true) ∈ int_impls) := by decide

/--
Claim C6 as amended (corrected).  Integers of width 8, 16 or 32 bits,
signed or unsigned, are encodable values (the widths with impls in the
source), and encoding emits the minimal-digit decimal text: an optional
leading minus for negative values followed by decimal digits only (no
grouping), whose value is the magnitude and whose first digit is nonzero
except for the single digit 0 itself.
-/
theorem claim_C6_amended (n : Int) (s : Sink) (h : s.budget = none) :
    ((8, false) ∈ int_impls ∧ (8, true) ∈ int_impls ∧ (16, false) ∈ int_impls ∧
     (16, true) ∈ int_impls ∧ (32, false) ∈ int_impls ∧ (32, true) ∈ int_impls) ∧
    int_write_json n s = ({ out := s.out ++ itoa_format n, budget := none }, true) ∧
    (0 ≤ n → itoa_format n = natDigits n.natAbs) ∧
    (n < 0 → itoa_format n = 45 :: natDigits n.natAbs) ∧
    (∀ d ∈ natDigits n.natAbs, 48 ≤ d ∧ d ≤ 57) ∧
    digitsVal (natDigits n.natAbs) = n.natAbs ∧
    (n.natAbs ≠ 0 → (natDigits n.natAbs).head? ≠ some 48) ∧
    (n = 0 → itoa_format n = [48]) := by
  refine ⟨by decide, ?_, ?_, ?_, natDigits_mem _, digitsVal_natDigits _, natDigits_head _, ?_⟩
  · unfold int_write_json
    rw [writeStr_none s _ h]
  · intro hn
    unfold itoa_format
    rw [if_neg (by omega)]
  · intro hn
    unfold itoa_format
    rw [if_pos hn]
  · intro hn
    subst hn
    unfold itoa_format
    simp [natDigits_zero]

/-- Witness for the amended C6 at the value -42. -/
theorem claim_C6_amended_witness :
    int_write_json (-42) { out := [], budget := none }
      = ({ out := [45, 52, 50], budget := none }, true) := by
  have h := (claim_C6_amended (-42) { out := [], budget := none } rfl).2.1
  rw [h]
  have e : itoa_format (-42) = [45, 52, 50] := by
    unfold itoa_format
    rw [if_pos (by omega)]
    norm_num
    simp [natDigits]
  rw [e]
  simp

/-- The escaped byte string of the key `number`. -/
def numberKey : List Nat := [110, 117, 109, 98, 101, 114]

/--
The duplicate-key scenario of claim C8: a fresh object builder on an
infallible sink, `member("number", 42)`, `member("number", 43)`, `end`,
paired with the conjunction of the success flags of the four steps.
-/
def duplicate_keys_run : Sink × Bool :=
  let r0 := write_object { out := [], budget := none }
  let r1 := r0.1.member numberKey (int_write_json 42)
  let r2 := r1.1.member numberKey (int_write_json 43)
  let r3 := objEnd r2.1
  (r3.1, r0.2 && r1.2 && r2.2 && r3.2)

/--
Claim C8 (confirmed).  The duplicate-key run writes both members in
append order and returns success at every step, producing exactly the
bytes of the text with both duplicate keys present: keys are never
deduplicated.
-/
theorem claim_C8 :
    duplicate_keys_run
      = ({ out := [123, 34, 110, 117, 109, 98, 101, 114, 34, 58, 52, 50, 44,
                   34, 110, 117, 109, 98, 101, 114, 34, 58, 52, 51, 125],
           budget := none }, true) := by
  have e1 : numberKey.flatMap spec_escape = numberKey := by decide
  have e42 : itoa_format 42 = [52, 50] := by
    unfold itoa_format
    rw [if_neg (by omega)]
    simp [natDigits]
  have e43 : itoa_format 43 = [52, 51] := by
    unfold itoa_format
    rw [if_neg (by omega)]
    simp [natDigits]
  simp only [duplicate_keys_run, write_object, JSONObjectWriter.member, int_write_json]
  simp [objNew_none, objWriteKey_none, writeStr_none, objEnd_none, e1, e42, e43, numberKey]
  decide

end JsonWriter
